/-
  Verification of the UBI2 PEB-map allocator and layout-volume recovery code
  (linux-2.6-ubi2, drivers/mtd/ubi2).

  The PEB-map (PMAP) subsystem is embedded from the most complete draft of
  pmap.c (the draft carrying ubi_pmap_vol_reserved_area, the circular shrink
  loop, ubi_pmap_allocate_vol_pebs and ubi_pmap_extract_vol_pebs); the layout
  volume recovery is embedded from the second draft of vtbl.c (process_lvol,
  vtbl_check, create_vtbl, create_empty_lvol, ubi_read_volume_table).

  C `int` values that are used only as non-negative identifiers and counters
  (vol_id, lnum, pnum, block counts) are embedded as `Nat`; values that the
  code compares against negative error codes or -1 sentinels are embedded as
  `Int` or `Option`.  A C loop `for (p = first; p <= last; ++p)` is embedded
  as a walk over `pebRange first last = List.range' first (last + 1 - first)`,
  which agrees with the C loop whenever `first` and `last` come out of
  ubi_pmap_vol_reserved_area on a device with 0 < reserved layout size
  <= peb_count (the situation of every theorem below).
-/
import Mathlib

namespace Ubi2

/-! ### Device description and PEB-map data model -/

/-- The fields of `struct ubi_device` that the PMAP subsystem reads:
`peb_count`, and the compile-time constant `UBI_LAYOUT_VOLUME_RESERVED_EBS`
(the header defining it is not part of the sources; the spec fixes it as the
size of the reserved low-index layout region, 4 in the end-to-end scenario). -/
structure UbiDevice where
  peb_count : Nat
  layout_reserved_ebs : Nat
deriving DecidableEq, Repr

/-- `UBI_LAYOUT_VOLUME_ID`: the distinguished internal volume id of the
layout volume (value from the standard UBI headers; only its distinctness
from ordinary user volume ids matters). -/
def UBI_LAYOUT_VOLUME_ID : Nat := 0x7fffefff

/-- One entry of `struct ubi_pmap` (keyed by pnum): owning volume, logical
block number, in-use flag, bad flag. -/
structure PmapEntry where
  vol_id : Nat
  lnum : Nat
  inuse : Bool
  bad : Bool
deriving DecidableEq, Repr

/-- The all-zero entry produced by `memset(pmap, 0, ...)`. -/
def PmapEntry.empty : PmapEntry := ⟨0, 0, false, false⟩

/-- The in-memory PEB map: one `PmapEntry` per pnum, pnum = list index. -/
abbrev Pmap := List PmapEntry

/-- `ubi_pmap_init`: allocate and zero `peb_count` entries. -/
def ubi_pmap_init (ubi : UbiDevice) : Pmap :=
  List.replicate ubi.peb_count PmapEntry.empty

/-- The pnum walk of a C loop `for (pnum = first; pnum <= last; ++pnum)`. -/
def pebRange (first last : Nat) : List Nat :=
  List.range' first (last + 1 - first)

/-- `ubi_pmap_vol_reserved_area`: the layout volume is pinned to PEBs
`0 .. UBI_LAYOUT_VOLUME_RESERVED_EBS - 1`; every other volume draws from
`UBI_LAYOUT_VOLUME_RESERVED_EBS .. peb_count - 1`.  Returns (first, last). -/
def ubi_pmap_vol_reserved_area (ubi : UbiDevice) (vol_id : Nat) : Nat × Nat :=
  if vol_id = UBI_LAYOUT_VOLUME_ID then
    (0, ubi.layout_reserved_ebs - 1)
  else
    (ubi.layout_reserved_ebs, ubi.peb_count - 1)

/-- `ubi_pmap_vol_peb_count`: number of in-use, non-bad entries of `vol_id`
inside its reserved area. -/
def ubi_pmap_vol_peb_count (ubi : UbiDevice) (peb_map : Pmap) (vol_id : Nat) : Nat :=
  let first_peb := (ubi_pmap_vol_reserved_area ubi vol_id).1
  let last_peb := (ubi_pmap_vol_reserved_area ubi vol_id).2
  (pebRange first_peb last_peb).countP (fun pnum =>
    let pmap := peb_map.getD pnum PmapEntry.empty
    pmap.vol_id = vol_id ∧ pmap.inuse ∧ ¬pmap.bad)

/-- `ubi_pmap_lookup_pnum`: first pnum in the volume's reserved area whose
entry matches `(vol_id, lnum)`, is in use and not bad; C returns -1 when
none is found, embedded as `none`. -/
def ubi_pmap_lookup_pnum (ubi : UbiDevice) (peb_map : Pmap) (vol_id lnum : Nat) :
    Option Nat :=
  let first_peb := (ubi_pmap_vol_reserved_area ubi vol_id).1
  let last_peb := (ubi_pmap_vol_reserved_area ubi vol_id).2
  (pebRange first_peb last_peb).find? (fun pnum =>
    let pmap := peb_map.getD pnum PmapEntry.empty
    pmap.vol_id = vol_id ∧ pmap.lnum = lnum ∧ pmap.inuse ∧ ¬pmap.bad)

/-! ### ubi_pmap_allocate_vol_pebs -/

/-- The write loop of `ubi_pmap_allocate_vol_pebs`: entry `peb + i` gets
volume `vol_id`, lnum `leb + i`, and `(inuse, bad) = (1,0)` for a good range
or `(0,1)` for a bad one. -/
def allocate_write (vol_id peb leb : Nat) (bad : Bool) : Nat → Pmap → Pmap
  | 0, m => m
  | i + 1, m =>
      let m' := allocate_write vol_id peb leb bad i m
      m'.set (peb + i)
        { vol_id := vol_id, lnum := leb + i,
          inuse := !bad, bad := bad }

/-- `ubi_pmap_allocate_vol_pebs`: bulk-assign the contiguous PEB range
`[peb, peb + blocks)` to `vol_id` with consecutive LEB numbers starting at
`leb`.  Fails with -EINVAL (embedded `Except.error (-22)`) when the range
leaves the volume's reserved area or when some target entry is already in
use for the same volume; otherwise returns the updated map. -/
def ubi_pmap_allocate_vol_pebs (ubi : UbiDevice) (peb_map : Pmap)
    (vol_id peb leb blocks : Nat) (bad : Bool) : Except Int Pmap :=
  let first_peb := (ubi_pmap_vol_reserved_area ubi vol_id).1
  let last_peb := (ubi_pmap_vol_reserved_area ubi vol_id).2
  if peb < first_peb ∨ peb + blocks > last_peb + 1 then
    .error (-22)
  else if (List.range blocks).any (fun i =>
      let pmap := peb_map.getD (peb + i) PmapEntry.empty
      pmap.vol_id = vol_id ∧ pmap.inuse) then
    .error (-22)
  else
    .ok (allocate_write vol_id peb leb bad blocks peb_map)

/-! ### ubi_pmap_extract_vol_pebs -/

/-- One run reported to the `vol_pebs_cb` callback of
`ubi_pmap_extract_vol_pebs`: `(vol_id, first peb, first leb, block count,
bad flag)`, in callback order. -/
structure PmapRun where
  vol_id : Nat
  peb : Nat
  leb : Nat
  blocks : Nat
  bad : Bool
deriving DecidableEq, Repr

/-- The scan loop of `ubi_pmap_extract_vol_pebs`: `i` is the current index,
`bf` is `(block_first_idx, *block_first_pmap)` (or `none` when
`block_first_pmap == NULL`), the remaining entries are walked in order.
Exactly as in the C loop, reaching the end of the map emits nothing for a
still-open run. -/
def extract_go (i : Nat) (bf : Option (Nat × PmapEntry)) : List PmapEntry → List PmapRun
  | [] => []
  | pmap :: rest =>
    match bf with
    | none =>
        if pmap.inuse then extract_go (i + 1) (some (i, pmap)) rest
        else extract_go (i + 1) none rest
    | some (block_first_idx, block_first_pmap) =>
        if ¬pmap.inuse ∨ pmap.vol_id ≠ block_first_pmap.vol_id ∨
            pmap.bad ≠ block_first_pmap.bad ∨
            pmap.lnum ≠ block_first_pmap.lnum + (i - block_first_idx) then
          ⟨block_first_pmap.vol_id, block_first_idx, block_first_pmap.lnum,
            i - block_first_idx, block_first_pmap.bad⟩ ::
          (if pmap.inuse then extract_go (i + 1) (some (i, pmap)) rest
           else extract_go (i + 1) none rest)
        else
          extract_go (i + 1) (some (block_first_idx, block_first_pmap)) rest

/-- `ubi_pmap_extract_vol_pebs`: walk pnum order, reporting each maximal
contiguous run (same vol_id, same bad flag, consecutive lnum) through the
callback; embedded as the list of calls, in order. -/
def ubi_pmap_extract_vol_pebs (peb_map : Pmap) : List PmapRun :=
  extract_go 0 none peb_map

/-! ### ubi_pmap_resize_volume -/

/-- The deletion loop of `ubi_pmap_resize_volume` for `reserved_pebs == 0`:
`memset` to zero every entry in the volume's area whose vol_id matches. -/
def resize_clear (vol_id : Nat) : List Nat → Pmap → Pmap
  | [], m => m
  | pnum :: rest, m =>
      let pmap := m.getD pnum PmapEntry.empty
      if pmap.vol_id = vol_id then
        resize_clear vol_id rest (m.set pnum PmapEntry.empty)
      else
        resize_clear vol_id rest m

/-- The growth loop of `ubi_pmap_resize_volume`: scan the volume's area in
ascending pnum order; every free, non-bad entry becomes
`(vol_id, lnum, inuse)` with `lnum` counting up, stopping as soon as `lnum`
reaches `reserved_pebs`.  Returns the map and the final `lnum` counter. -/
def resize_grow (vol_id reserved_pebs : Nat) : List Nat → Pmap → Nat → Pmap × Nat
  | [], m, lnum => (m, lnum)
  | pnum :: rest, m, lnum =>
      let pmap := m.getD pnum PmapEntry.empty
      if ¬pmap.inuse ∧ ¬pmap.bad then
        let m' := m.set pnum { pmap with inuse := true, vol_id := vol_id, lnum := lnum }
        if lnum + 1 = reserved_pebs then (m', lnum + 1)
        else resize_grow vol_id reserved_pebs rest m' (lnum + 1)
      else
        resize_grow vol_id reserved_pebs rest m lnum

/-- The post-body step of the shrink loop: `pnum--; if (pnum < first_peb)
pnum = last_peb;`.  For `pnum ≤ first_peb` the decrement falls below the
area (also when pnum = 0 in C, where the int goes to -1) and wraps to
`last_peb`. -/
def shrink_next (first_peb last_peb pnum : Nat) : Nat :=
  if pnum ≤ first_peb then last_peb else pnum - 1

/-- The shrink loop of `ubi_pmap_resize_volume`: an unconditional
`while (true)` scanning pnum space circularly from `last_peb` downwards,
clearing `inuse` of the entry holding the current highest lnum
(`lnum - 1`), until `lnum` drops to `reserved_pebs`.  The C loop has no
exit besides the `lnum == reserved_pebs` break, so the embedding carries a
fuel argument; `none` means the loop was still running after `fuel`
iterations. -/
def shrink_loop (vol_id first_peb last_peb reserved_pebs : Nat) :
    Nat → Pmap → Nat → Nat → Option Pmap
  | 0, _, _, _ => none
  | fuel + 1, m, pnum, lnum =>
      let pmap := m.getD pnum PmapEntry.empty
      if pmap.vol_id = vol_id ∧ pmap.lnum = lnum - 1 ∧ pmap.inuse ∧ ¬pmap.bad then
        let m' := m.set pnum { pmap with inuse := false }
        if lnum - 1 = reserved_pebs then some m'
        else shrink_loop vol_id first_peb last_peb reserved_pebs fuel m'
          (shrink_next first_peb last_peb pnum) (lnum - 1)
      else
        shrink_loop vol_id first_peb last_peb reserved_pebs fuel m
          (shrink_next first_peb last_peb pnum) lnum

/-- `ubi_pmap_resize_volume`: `reserved_pebs == 0` deletes every matching
entry in the volume's area; otherwise the volume's current PEB count is
taken, the growth loop adds free PEBs when it is below `reserved_pebs`, and
the circular shrink loop removes from the logical end when it is above.
The C function returns 0 whenever it returns; `none` stands for the shrink
loop still running after `fuel` iterations. -/
def ubi_pmap_resize_volume (ubi : UbiDevice) (peb_map : Pmap)
    (vol_id reserved_pebs : Nat) (fuel : Nat) : Option (Int × Pmap) :=
  let first_peb := (ubi_pmap_vol_reserved_area ubi vol_id).1
  let last_peb := (ubi_pmap_vol_reserved_area ubi vol_id).2
  if reserved_pebs = 0 then
    some (0, resize_clear vol_id (pebRange first_peb last_peb) peb_map)
  else
    let lnum := ubi_pmap_vol_peb_count ubi peb_map vol_id
    let grown :=
      if lnum < reserved_pebs then
        resize_grow vol_id reserved_pebs (pebRange first_peb last_peb) peb_map lnum
      else (peb_map, lnum)
    if grown.2 > reserved_pebs then
      (shrink_loop vol_id first_peb last_peb reserved_pebs fuel grown.1 last_peb
        grown.2).map (fun m2 => (0, m2))
    else
      some (0, grown.1)

/-! ### ubi_pmap_markbad_replace -/

/-- `ubi_pmap_markbad_replace`: mark the entry at `pnum` bad and not in use;
when it was in use and not already bad, put the first free, non-bad entry of
the owner volume's reserved area in use with the same `(vol_id, lnum)` and
return its pnum; when it was not in use return `pnum`; when a replacement is
needed but none exists return -ENOMEM (-12).  Returns (C return value,
updated map). -/
def ubi_pmap_markbad_replace (ubi : UbiDevice) (peb_map : Pmap) (pnum : Nat) :
    Int × Pmap :=
  let pmap := peb_map.getD pnum PmapEntry.empty
  let need_replacment := pmap.inuse ∧ ¬pmap.bad
  let m1 := peb_map.set pnum { pmap with bad := true, inuse := false }
  let first_peb := (ubi_pmap_vol_reserved_area ubi pmap.vol_id).1
  let last_peb := (ubi_pmap_vol_reserved_area ubi pmap.vol_id).2
  if need_replacment then
    match (pebRange first_peb last_peb).find? (fun replacment_pnum =>
        let replacment_pmap := m1.getD replacment_pnum PmapEntry.empty
        ¬replacment_pmap.inuse ∧ ¬replacment_pmap.bad) with
    | some replacment_pnum =>
        let replacment_pmap := m1.getD replacment_pnum PmapEntry.empty
        (replacment_pnum,
         m1.set replacment_pnum
           { replacment_pmap with
               inuse := true, vol_id := pmap.vol_id, lnum := pmap.lnum })
    | none => (-12, m1)
  else
    (pnum, m1)

/-! ### PEB-map operation sequences (for the invariants of §8) -/

/-- One mutating PMAP operation, as in §8 of the design: `allocateRange`,
`resize` (with the fuel of the embedded shrink loop) or
`markBadAndReplace`. -/
inductive PmapOp where
  | allocate (vol_id peb leb blocks : Nat) (bad : Bool)
  | resize (vol_id reserved_pebs fuel : Nat)
  | markbad (pnum : Nat)
deriving DecidableEq, Repr

/-- Apply one operation to the in-memory map.  A rejected allocation mutates
nothing (the C function checks before writing); a resize whose shrink loop
is still spinning after its fuel never returns in C, so no post-state is
observable and the map is kept. -/
def applyOp (ubi : UbiDevice) (m : Pmap) : PmapOp → Pmap
  | .allocate vol_id peb leb blocks bad =>
      match ubi_pmap_allocate_vol_pebs ubi m vol_id peb leb blocks bad with
      | .ok m' => m'
      | .error _ => m
  | .resize vol_id reserved_pebs fuel =>
      match ubi_pmap_resize_volume ubi m vol_id reserved_pebs fuel with
      | some (_, m') => m'
      | none => m
  | .markbad pnum => (ubi_pmap_markbad_replace ubi m pnum).2

/-- `bad` and `inuse` are never both set (§3 invariant). -/
def PmapInv (m : Pmap) : Prop :=
  ∀ e ∈ m, e.inuse = false ∨ e.bad = false

/-- Replay a whole call sequence from a freshly initialised map. -/
def runOps (ubi : UbiDevice) (ops : List PmapOp) : Pmap :=
  ops.foldl (applyOp ubi) (ubi_pmap_init ubi)

/-! ### PPO byte decoding (§4.3 of the spec; part_000 of the sources)

No C implementation of the PPO decoder exists in the sources: part_000 is
the design document describing the byte-value categories in prose (its
category list carries an internal slip: the line naming 3,4,5 *and 6* set
bits as invalid is contradicted by its own examples 0xfc/0xf9 — six-bit
patterns — decoded as value one).  The decoder below is modelled from the
spec's table. -/

/-- Number of flash bits set in one PPO byte. -/
def ppoBitsSet (b : Nat) : Nat :=
  (List.range 8).countP (fun i => b.testBit i)

/-- The decoded unit value of one PPO byte: `value 0`/`value 1`, or
`invalid` for a byte that must abort decoding. -/
inductive PpoUnit where
  | value (n : Nat)
  | invalid
deriving DecidableEq, Repr

/-- Modelled from the spec: the §4.3 PPO byte-class table.  Zero, one or two
bits set decode to unit 0 (all-zero modulo at most two bit flips); six,
seven or eight bits set decode to unit 1 (all-ones modulo at most two bit
flips); three to five bits set are invalid and flag the block. -/
def decode_ppo_byte (b : Nat) : PpoUnit :=
  if ppoBitsSet b ≤ 2 then .value 0
  else if 6 ≤ ppoBitsSet b then .value 1
  else .invalid

/-- The set of flash bit positions set in a byte, as a Finset cardinality:
the independent popcount formulation the byte-class table is checked
against. -/
def bitsSetCard (b : Nat) : Nat :=
  ((Finset.range 8).filter (fun i => b.testBit i)).card

/-- Modelled from the spec: the decoded PPO of a region is the count of
leading bytes decoding to unit 0 (the programmed, "used" offset bytes); a
byte decoding to `invalid` anywhere in the region aborts decoding with an
error instead of guessing. -/
def decode_ppo (region : List Nat) : Option Nat :=
  if region.any (fun b => decode_ppo_byte b = .invalid) then none
  else some ((region.takeWhile (fun b => decode_ppo_byte b = .value 0)).length)

/-! ### Volume-table and PEB-table records (vtbl.c, second draft)

The record layouts live in the missing ubi.h header; fields and the flag
bits are modelled from the spec (§3 PtblRecord/VtblRecord) and from how
vtbl.c reads them.  The CRC32 primitive is an external collaborator (spec
§1) and is a context function; a record's stored CRC covers all fields
before the `crc` member, modelled as applying the context function to the
record with `crc := 0`.  The draft uses the names UBI_PEB_FREE,
UBI_PEB_INUSE and UBI_PMAP_INUSE for the same in-use flag bit. -/

def UBI_VID_DYNAMIC : Nat := 1
def UBI_VID_STATIC : Nat := 2
def UBI_VOL_NAME_MAX : Nat := 127
def UBI_INT_VOL_COUNT : Nat := 1
def UBI_PEB_INUSE : Nat := 1
def UBI_PEB_BAD : Nat := 2
def UBI_PEB_FREE : Nat := UBI_PEB_INUSE
def UBI_PMAP_INUSE : Nat := UBI_PEB_INUSE

/-- Modelled from the spec: two redundant copies of the layout volume, each
a pair of consecutive LEBs ([volume-table image][PEB-table image]), so the
layout volume has four LEBs. -/
def UBI_LAYOUT_VOLUME_COPIES : Nat := 2
def UBI_LAYOUT_VOLUME_EBS_PER_COPY : Nat := 2
def UBI_LAYOUT_VOLUME_EBS : Nat :=
  UBI_LAYOUT_VOLUME_COPIES * UBI_LAYOUT_VOLUME_EBS_PER_COPY
def UBI_LAYOUT_VOLUME_SIZE : Nat := UBI_LAYOUT_VOLUME_EBS

/-- One `struct ubi_vtbl_record`. -/
structure VtblRecord where
  reserved_pebs : Int
  alignment : Int
  data_pad : Int
  vol_type : Nat
  upd_marker : Nat
  name_len : Int
  name : List Nat
  flags : Nat
  crc : Nat
deriving DecidableEq, Repr

/-- One `struct ubi_pmap_record` (a run-length PEB-table record). -/
structure PtblRecord where
  peb : Int
  leb : Int
  num : Int
  vol_id : Int
  flags : Nat
  crc : Nat
deriving DecidableEq, Repr

/-- The static `empty_vtbl_record`: zero-initialised, with its `crc` member
assigned 0xf116c36b at the top of ubi_read_volume_table. -/
def empty_vtbl_record : VtblRecord :=
  { reserved_pebs := 0, alignment := 0, data_pad := 0, vol_type := 0,
    upd_marker := 0, name_len := 0,
    name := List.replicate (UBI_VOL_NAME_MAX + 1) 0, flags := 0,
    crc := 0xf116c36b }

/-- The static `empty_pmap_record`, same construction. -/
def empty_pmap_record : PtblRecord :=
  { peb := 0, leb := 0, num := 0, vol_id := 0, flags := 0, crc := 0xf116c36b }

/-- An all-zero volume-table record: the content of a vtbl read buffer that
was `memset` to 0 and whose flash read failed. -/
def zero_vtbl_record : VtblRecord :=
  { empty_vtbl_record with crc := 0 }

/-- An all-zero PEB-table record, same situation. -/
def zero_pmap_record : PtblRecord :=
  { empty_pmap_record with crc := 0 }

/-- The device/context fields of `struct ubi_device` that vtbl.c reads,
plus the two external collaborators: the CRC32 primitive and the
`vol_id2idx` mapping from the missing ubi.h. -/
structure VtblCtx where
  ubi : UbiDevice
  vtbl_slots : Nat
  ptbl_slots : Nat
  leb_size : Nat
  min_io_size : Nat
  good_peb_count : Int
  crc32v : VtblRecord → Nat
  crc32p : PtblRecord → Nat
  vol_id2idx : Int → Int

/-- A volume-table image: `vtbl_slots` records. -/
abbrev VtblImg := List VtblRecord

/-- A PEB-table image: `ptbl_slots` records. -/
abbrev PtblImg := List PtblRecord

/-- `strnlen(name, maxlen)` over a zero-padded byte buffer. -/
def strnlen (s : List Nat) (maxlen : Nat) : Nat :=
  min ((s.takeWhile (fun c => c ≠ 0)).length) maxlen

/-- `!strncmp(s1, s2, n)` over zero-padded byte buffers: equality of the
first `n` bytes, stopping at a common NUL. -/
def strncmp_eq : List Nat → List Nat → Nat → Bool
  | _, _, 0 => true
  | s1, s2, n + 1 =>
      let c1 := s1.headD 0
      let c2 := s2.headD 0
      if c1 ≠ c2 then false
      else if c1 = 0 then true
      else strncmp_eq s1.tail s2.tail n

/-- The per-record checks of vtbl_check (vtbl.c lines 1490-1569): first
failure code, `1` for a CRC mismatch, `-EINVAL` (-22) for inconsistent
data, `none` when the record is fine. -/
def vtbl_rec_err (ctx : VtblCtx) (r : VtblRecord) : Option Int :=
  if ctx.crc32v { r with crc := 0 } ≠ r.crc then some 1
  else if r.reserved_pebs = 0 then
    (if r ≠ empty_vtbl_record then some (-22) else none)
  else if r.reserved_pebs < 0 ∨ r.alignment < 0 ∨ r.data_pad < 0 ∨
      r.name_len < 0 then some (-22)
  else if r.alignment > (ctx.leb_size : Int) ∨ r.alignment = 0 then some (-22)
  else if r.alignment ≠ 1 ∧ r.alignment.toNat &&& (ctx.min_io_size - 1) ≠ 0 then
    some (-22)
  else if r.data_pad ≠ ((ctx.leb_size % r.alignment.toNat : Nat) : Int) then
    some (-22)
  else if r.vol_type ≠ UBI_VID_DYNAMIC ∧ r.vol_type ≠ UBI_VID_STATIC then
    some (-22)
  else if r.upd_marker ≠ 0 ∧ r.upd_marker ≠ 1 then some (-22)
  else if r.reserved_pebs > ctx.good_peb_count then some (-22)
  else if r.name_len > (UBI_VOL_NAME_MAX : Int) then some (-22)
  else if r.name.headD 0 = 0 then some (-22)
  else if r.name_len ≠ (strnlen r.name (r.name_len.toNat + 1) : Int) then
    some (-22)
  else none

/-- The per-record checks of the PEB-table loop of vtbl_check (lines
1590-1630).  `flags & ~(UBI_PEB_FREE | UBI_PEB_BAD)` is nonzero exactly
when some bit above the two allowed low bits is set, i.e. `3 < flags`. -/
def ptbl_rec_err (ctx : VtblCtx) (r : PtblRecord) : Option Int :=
  if ctx.crc32p { r with crc := 0 } ≠ r.crc then some 1
  else if r.peb < 0 ∨ r.leb < 0 then some (-22)
  else if 3 < r.flags then some (-22)
  else if ctx.vol_id2idx r.vol_id > ((ctx.vtbl_slots + UBI_INT_VOL_COUNT : Nat) : Int) then
    some (-22)
  else none

/-- First `some` of a list of per-record results (the early `return` of the
C scan loops). -/
def first_err : List (Option Int) → Option Int
  | [] => none
  | none :: rest => first_err rest
  | some e :: _ => some e

/-- `vtbl_check` (vtbl.c lines 1477-1645): per-record volume-table checks in
slot order, then pairwise name-uniqueness, then per-record PEB-table
checks.  Returns 0 when all is well, 1 on the first CRC failure, -EINVAL
(-22) on the first inconsistency. -/
def vtbl_check (ctx : VtblCtx) (vtbl : VtblImg) (ptbl : PtblImg) : Int :=
  match first_err ((List.range ctx.vtbl_slots).map (fun i =>
      vtbl_rec_err ctx (vtbl.getD i empty_vtbl_record))) with
  | some e => e
  | none =>
    if (List.range (ctx.vtbl_slots - 1)).any (fun i =>
        (List.range' (i + 1) (ctx.vtbl_slots - (i + 1))).any (fun n =>
          let r1 := vtbl.getD i empty_vtbl_record
          let r2 := vtbl.getD n empty_vtbl_record
          0 < r1.name_len ∧ r1.name_len = r2.name_len ∧
            strncmp_eq r1.name r2.name r1.name_len.toNat)) then
      -22
    else
      match first_err ((List.range ctx.ptbl_slots).map (fun i =>
          ptbl_rec_err ctx (ptbl.getD i empty_pmap_record))) with
      | some e => e
      | none => 0

/-! ### Layout volume recovery (process_lvol and its callers) -/

/-- One flash operation performed while rewriting a layout-volume copy.
The embedding records the I/O of create_vtbl as a log; writes always
succeed (flash write failure is outside the modelled state). -/
inductive LayoutWrite where
  | unmap (leb : Nat)
  | vtbl (leb : Nat) (img : VtblImg)
  | ptbl (leb : Nat) (img : PtblImg)
deriving DecidableEq, Repr

/-- `create_vtbl` (vtbl.c lines 1658-1773): rewrite copy `copy` of the
layout volume: unmap and write the vtbl LEB, then unmap and write the
following ptbl LEB, at `leb = copy * UBI_LAYOUT_VOLUME_EBS_PER_COPY`.
Returns (error code, performed flash operations). -/
def create_vtbl (copy : Nat) (vtbl : VtblImg) (ptbl : PtblImg) :
    Int × List LayoutWrite :=
  let leb := copy * UBI_LAYOUT_VOLUME_EBS_PER_COPY
  (0, [.unmap leb, .vtbl leb vtbl, .unmap (leb + 1), .ptbl (leb + 1) ptbl])

/-- The read results of the four layout-volume LEBs at attach: LEB `n`
interpreted as a volume-table image or as a PEB-table image; `none` is a
failed read (the C buffer then keeps its `memset` zeroes). -/
structure LayoutFlash where
  vtblLeb : Nat → Option VtblImg
  ptblLeb : Nat → Option PtblImg

/-- A vtbl read buffer of all zeroes. -/
def zero_vtbl_img (ctx : VtblCtx) : VtblImg :=
  List.replicate ctx.vtbl_slots zero_vtbl_record

/-- A ptbl read buffer of all zeroes. -/
def zero_ptbl_img (ctx : VtblCtx) : PtblImg :=
  List.replicate ctx.ptbl_slots zero_pmap_record

/-- The copy indices visited by the read loop of process_lvol,
`for (i = 0; i < UBI_LAYOUT_VOLUME_COPIES; i += UBI_LAYOUT_VOLUME_EBS_PER_COPY)`:
the multiples of the *per-copy LEB count* below the *copy count*.  With two
copies of two LEBs each this is just {0}: the loop body runs once and the
buffers of copy 1 are never allocated or read. -/
def lvolReadIdx : List Nat :=
  (List.range ((UBI_LAYOUT_VOLUME_COPIES + UBI_LAYOUT_VOLUME_EBS_PER_COPY - 1) /
      UBI_LAYOUT_VOLUME_EBS_PER_COPY)).map (· * UBI_LAYOUT_VOLUME_EBS_PER_COPY)

/-- `leb[i]` after the read loop of process_lvol: allocated (and holding the
read data, or zeroes after a failed read) only for visited `i`, `NULL`
(`none`) otherwise.  The vtbl LEB of iteration `i` is LEB `i`. -/
def lvol_buf_vtbl (ctx : VtblCtx) (flash : LayoutFlash) (i : Nat) : Option VtblImg :=
  if i ∈ lvolReadIdx then some ((flash.vtblLeb i).getD (zero_vtbl_img ctx))
  else none

/-- `pmap_leb[i]` after the read loop: the ptbl LEB of iteration `i` is
LEB `i + 1`. -/
def lvol_buf_ptbl (ctx : VtblCtx) (flash : LayoutFlash) (i : Nat) : Option PtblImg :=
  if i ∈ lvolReadIdx then some ((flash.ptblLeb (i + 1)).getD (zero_ptbl_img ctx))
  else none

/-- `process_lvol` (vtbl.c lines 1783-1949): read the layout volume copies,
validate copy 0; when copy 0 is good, adopt it, and rewrite copy 1 from it
unless both buffers of copy 1 exist and compare equal; when copy 0 is bad,
validate copy 1, adopt it and rewrite copy 0 from it, failing with -EINVAL
when it is bad too.  Returns (adopted tables or error, flash writes). -/
def process_lvol (ctx : VtblCtx) (flash : LayoutFlash) :
    Except Int (VtblImg × PtblImg) × List LayoutWrite :=
  let leb0 := lvol_buf_vtbl ctx flash 0
  let leb1 := lvol_buf_vtbl ctx flash 1
  let pmap_leb0 := lvol_buf_ptbl ctx flash 0
  let pmap_leb1 := lvol_buf_ptbl ctx flash 1
  let cc0 : Int :=
    match leb0, pmap_leb0 with
    | some v, some p => vtbl_check ctx v p
    | _, _ => 1
  if cc0 < 0 then (.error (-22), [])
  else if cc0 = 0 then
    match leb0, pmap_leb0 with
    | some v0, some p0 =>
        let cc1 : Int :=
          match leb1, pmap_leb1 with
          | some v1, some p1 => if v0 = v1 ∧ p0 = p1 then 0 else 1
          | _, _ => 1
        if cc1 ≠ 0 then
          let (werr, w) := create_vtbl 1 v0 p0
          if werr ≠ 0 then (.error werr, w) else (.ok (v0, p0), w)
        else (.ok (v0, p0), [])
    | _, _ => (.error (-22), [])
  else
    match leb1 with
    | some v1 =>
        let p1 := pmap_leb1.getD (zero_ptbl_img ctx)
        let cc1 := vtbl_check ctx v1 p1
        if cc1 < 0 then (.error (-22), [])
        else if cc1 ≠ 0 then (.error (-22), [])
        else
          let (werr, w) := create_vtbl 0 v1 p1
          if werr ≠ 0 then (.error werr, w) else (.ok (v1, p1), w)
    | none => (.error (-22), [])

/-- `concat_pmap_record` (vtbl.c lines 1960-2000): combine two PEB-table
records when they belong to the same volume with equal flags and are
colocated both physically and logically; the surviving record absorbs the
other's block count, the absorbed record loses its in-use flag
(`flags2 &= ~UBI_PEB_INUSE`, i.e. the low bit is cleared), and both CRCs
are refreshed. -/
def concat_pmap_record (ctx : VtblCtx) (pr1 pr2 : PtblRecord) :
    PtblRecord × PtblRecord :=
  if pr1.vol_id = pr2.vol_id ∧ pr1.flags = pr2.flags then
    let peb_before := pr1.peb = pr2.peb + pr2.num
    let peb_after := pr2.peb = pr1.peb + pr1.num
    let leb_before := pr1.leb = pr2.leb + pr2.num
    let leb_after := pr2.leb = pr1.leb + pr1.num
    if (peb_after ∧ leb_after) ∨ (peb_before ∧ leb_before) then
      let pr1a := if peb_before then { pr1 with peb := pr2.peb, leb := pr2.leb }
                  else pr1
      let pr1b := { pr1a with num := pr1.num + pr2.num }
      let pr1c := { pr1b with crc := ctx.crc32p { pr1b with crc := 0 } }
      let pr2a := { pr2 with flags := 2 * (pr2.flags / 2) }
      let pr2b := { pr2a with crc := ctx.crc32p { pr2a with crc := 0 } }
      (pr1c, pr2b)
    else (pr1, pr2)
  else (pr1, pr2)

/-- The inner `j` loop of normalise_ptbl over slots `i+1 .. ptbl_slots-1`,
re-reading slot `i` each time as the C code does through its pointer. -/
def normalise_inner (ctx : VtblCtx) (i : Nat) : List Nat → PtblImg → PtblImg
  | [], t => t
  | j :: rest, t =>
      let p2 := t.getD j empty_pmap_record
      if p2.flags &&& UBI_PEB_INUSE ≠ 0 ∧ p2.flags &&& UBI_PEB_BAD = 0 then
        let p1 := t.getD i empty_pmap_record
        let (p1', p2') := concat_pmap_record ctx p1 p2
        normalise_inner ctx i rest ((t.set i p1').set j p2')
      else normalise_inner ctx i rest t

/-- `normalise_ptbl` (vtbl.c lines 2011-2034): try to concat every in-use,
non-bad record with every later in-use, non-bad record. -/
def normalise_ptbl (ctx : VtblCtx) (t : PtblImg) : PtblImg :=
  (List.range (ctx.ptbl_slots - 1)).foldl (fun t i =>
    let p1 := t.getD i empty_pmap_record
    if p1.flags &&& UBI_PEB_INUSE ≠ 0 ∧ p1.flags &&& UBI_PEB_BAD = 0 then
      normalise_inner ctx i (List.range' (i + 1) (ctx.ptbl_slots - (i + 1))) t
    else t) t

/-- `create_empty_lvol` (vtbl.c lines 2046-2109): build an all-empty volume
table, a PEB table whose first UBI_LAYOUT_VOLUME_SIZE slots describe the
layout volume's own PEBs (looked up in the in-RAM PEB map; a failed lookup
stores the C -1 sentinel, since the `if (!ptbl)` guard in the source tests
the table pointer, which is never NULL there), normalise it, and write both
copies.  The `num` member of the layout records is never assigned and keeps
the empty record's 0. -/
def create_empty_lvol (ctx : VtblCtx) (peb_map : Pmap) :
    Except Int (VtblImg × PtblImg) × List LayoutWrite :=
  let vtbl : VtblImg := List.replicate ctx.vtbl_slots empty_vtbl_record
  let ptbl0 : PtblImg := List.replicate ctx.ptbl_slots empty_pmap_record
  let ptbl1 := (List.range UBI_LAYOUT_VOLUME_SIZE).foldl (fun t i =>
      let r0 := t.getD i empty_pmap_record
      let peb : Int :=
        match ubi_pmap_lookup_pnum ctx.ubi peb_map UBI_LAYOUT_VOLUME_ID i with
        | some p => (p : Int)
        | none => -1
      let r1 := { r0 with
        peb := peb
        leb := (i : Int)
        vol_id := (UBI_LAYOUT_VOLUME_ID : Int)
        flags := UBI_PMAP_INUSE }
      t.set i { r1 with crc := ctx.crc32p { r1 with crc := 0 } }) ptbl0
  let ptbl := normalise_ptbl ctx ptbl1
  let (e0, w0) := create_vtbl 0 vtbl ptbl
  if e0 ≠ 0 then (.error e0, w0)
  else
    let (e1, w1) := create_vtbl 1 vtbl ptbl
    if e1 ≠ 0 then (.error e1, w0 ++ w1)
    else (.ok (vtbl, ptbl), w0 ++ w1)

/-- Lines 2602-2611 of `ubi_read_volume_table`: process the layout volume;
if that fails — for any reason, including both copies being corrupted — a
new empty layout volume is created and written in its place, and the attach
continues with the empty tables. -/
def ubi_read_volume_table_recover (ctx : VtblCtx) (peb_map : Pmap)
    (flash : LayoutFlash) : Except Int (VtblImg × PtblImg) × List LayoutWrite :=
  match process_lvol ctx flash with
  | (.ok tables, w) => (.ok tables, w)
  | (.error _, w) =>
      match create_empty_lvol ctx peb_map with
      | (.ok tables, w2) => (.ok tables, w ++ w2)
      | (.error e, w2) => (.error e, w ++ w2)

/-- Re-allocate a list of extracted runs, in order, into a freshly
initialised map of the same size (the reconstruction direction of the §8
round-trip property); a rejected run leaves the map unchanged, as the C
function does. -/
def reallocate_runs (ubi : UbiDevice) (runs : List PmapRun) : Pmap :=
  runs.foldl (fun m r =>
    match ubi_pmap_allocate_vol_pebs ubi m r.vol_id r.peb r.leb r.blocks r.bad with
    | .ok m' => m'
    | .error _ => m) (ubi_pmap_init ubi)

/-! ### Concrete devices and map states used as inputs below -/

/-- A six-PEB device with a two-PEB reserved layout area. -/
def devA : UbiDevice := ⟨6, 2⟩

/-- A four-PEB device with a two-PEB reserved layout area. -/
def c3_ubi : UbiDevice := ⟨4, 2⟩

/-- A map whose only in-use run (volume 1, lnum 0) sits on the device's
last PEB. -/
def c3_map : Pmap :=
  [PmapEntry.empty, PmapEntry.empty, PmapEntry.empty, ⟨1, 0, true, false⟩]

/-- Volume 1 owns PEBs 2 (lnum 0) and 3 (lnum 1); PEB 4 is free; PEB 5 is
bad. -/
def c5_map : Pmap :=
  [PmapEntry.empty, PmapEntry.empty, ⟨1, 0, true, false⟩, ⟨1, 1, true, false⟩,
   PmapEntry.empty, ⟨0, 0, false, true⟩]

/-- Volume 1 owns PEBs 2 (lnum 2), 3 (lnum 0) and 4 (lnum 1) — the logical
order is scrambled in pnum space; PEB 5 is free. -/
def c6_map : Pmap :=
  [PmapEntry.empty, PmapEntry.empty, ⟨1, 2, true, false⟩, ⟨1, 0, true, false⟩,
   ⟨1, 1, true, false⟩, PmapEntry.empty]

/-- Volume 1 owns PEBs 2 and 3; PEB 4 is bad; only PEB 5 is free, so at
most one PEB of growth is available. -/
def c7_map : Pmap :=
  [PmapEntry.empty, PmapEntry.empty, ⟨1, 0, true, false⟩, ⟨1, 1, true, false⟩,
   ⟨0, 0, false, true⟩, PmapEntry.empty]

/-- Volume 1 owns PEB 2; PEB 4 is bad. -/
def c9_map : Pmap :=
  [PmapEntry.empty, PmapEntry.empty, ⟨1, 0, true, false⟩, PmapEntry.empty,
   ⟨0, 0, false, true⟩, PmapEntry.empty]

/-- Volume 1 owns PEBs 2 (lnum 0) and 3 (lnum 2): the lnum sequence has a
hole at 1, as left behind by a markbad-replace that found no
replacement. -/
def c10_map : Pmap :=
  [PmapEntry.empty, PmapEntry.empty, ⟨1, 0, true, false⟩, ⟨1, 2, true, false⟩,
   PmapEntry.empty, PmapEntry.empty]

/-- An eight-PEB device with the four-PEB reserved layout area of the
end-to-end scenario. -/
def cdev : UbiDevice := ⟨8, 4⟩

/-- A concrete attach context over `cdev`: two volume-table slots, six
PEB-table slots, and a constant 0xf116c36b standing in for the external
CRC32 primitive (so the static empty records carry a valid CRC, mirroring
the assignment at the top of ubi_read_volume_table); `vol_id2idx` maps
internal volume ids down past the slot count as in UBI. -/
def cctx : VtblCtx :=
  { ubi := cdev, vtbl_slots := 2, ptbl_slots := 6, leb_size := 512,
    min_io_size := 64, good_peb_count := 8,
    crc32v := fun _ => 0xf116c36b, crc32p := fun _ => 0xf116c36b,
    vol_id2idx := fun v =>
      if v < (UBI_LAYOUT_VOLUME_ID : Int) then v
      else v - UBI_LAYOUT_VOLUME_ID + 2 }

/-- A volume-table image of empty records: passes vtbl_check under
`cctx`. -/
def goodVtbl : VtblImg := List.replicate 2 empty_vtbl_record

/-- A PEB-table image of empty records: passes vtbl_check under `cctx`. -/
def goodPtbl : PtblImg := List.replicate 6 empty_pmap_record

/-- A flash state whose four layout LEBs all read successfully and whose
two copies are byte-for-byte identical and valid. -/
def c1_flash : LayoutFlash :=
  { vtblLeb := fun _ => some goodVtbl, ptblLeb := fun _ => some goodPtbl }

/-- A flash state whose four layout LEBs all read back as all-zero
garbage: every record of both copies fails its CRC check. -/
def c2_flash : LayoutFlash :=
  { vtblLeb := fun _ => some (zero_vtbl_img cctx),
    ptblLeb := fun _ => some (zero_ptbl_img cctx) }

/-- The PEB map at the point ubi_read_volume_table reaches the recovery
step: init_layout_volume has given the layout volume its four reserved
PEBs. -/
def c2_pm : Pmap :=
  [⟨UBI_LAYOUT_VOLUME_ID, 0, true, false⟩, ⟨UBI_LAYOUT_VOLUME_ID, 1, true, false⟩,
   ⟨UBI_LAYOUT_VOLUME_ID, 2, true, false⟩, ⟨UBI_LAYOUT_VOLUME_ID, 3, true, false⟩,
   PmapEntry.empty, PmapEntry.empty, PmapEntry.empty, PmapEntry.empty]

/-! ## Library lemmas -/

theorem getD_set_self {α : Type} (l : List α) (i : Nat) (a d : α)
    (h : i < l.length) : (l.set i a).getD i d = a := by
  simp [List.getD_eq_getElem?_getD, List.getElem?_set_self h]

theorem getD_set_ne {α : Type} (l : List α) {i j : Nat} (a d : α)
    (h : i ≠ j) : (l.set i a).getD j d = l.getD j d := by
  simp [List.getD_eq_getElem?_getD, List.getElem?_set_ne h]

theorem mem_pebRange {f l p : Nat} : p ∈ pebRange f l ↔ f ≤ p ∧ p ≤ l := by
  simp only [pebRange, List.mem_range'_1]
  omega

theorem pebRange_nodup (f l : Nat) : (pebRange f l).Nodup :=
  List.nodup_range' ..

theorem find?_range'_some {p : Nat → Bool} :
    ∀ {n s r : Nat}, (List.range' s n).find? p = some r →
      p r = true ∧ s ≤ r ∧ r < s + n ∧ ∀ j, s ≤ j → j < r → p j = false := by
  intro n
  induction n with
  | zero => intro s r h; simp [List.range'] at h
  | succ n ih =>
      intro s r h
      rw [List.range'_succ] at h
      by_cases hp : p s
      · rw [List.find?_cons_of_pos _ hp] at h
        cases h
        exact ⟨hp, Nat.le_refl _, by omega, fun j h1 h2 => absurd h1 (by omega)⟩
      · rw [List.find?_cons_of_neg _ hp] at h
        obtain ⟨h1, h2, h3, h4⟩ := ih h
        refine ⟨h1, by omega, by omega, fun j hj1 hj2 => ?_⟩
        rcases Nat.eq_or_lt_of_le hj1 with rfl | hlt
        · exact Bool.not_eq_true _ |>.mp hp
        · exact h4 j hlt hj2

theorem find?_pebRange_some {p : Nat → Bool} {f l r : Nat}
    (h : (pebRange f l).find? p = some r) :
    p r = true ∧ f ≤ r ∧ r ≤ l ∧ ∀ j, f ≤ j → j < r → p j = false := by
  obtain ⟨h1, h2, h3, h4⟩ := find?_range'_some h
  exact ⟨h1, h2, by omega, h4⟩

theorem find?_pebRange_none {p : Nat → Bool} {f l : Nat}
    (h : (pebRange f l).find? p = none) :
    ∀ j, f ≤ j → j ≤ l → p j = false := by
  intro j h1 h2
  have := List.find?_eq_none.mp h j (mem_pebRange.mpr ⟨h1, h2⟩)
  exact Bool.not_eq_true _ |>.mp this

/-! ## C4: PPO byte decoding -/

set_option maxRecDepth 8192 in
/-- C4: for every byte value 0x00-0xFF the decoder yields unit 0 when at
most two bits are set, `invalid` (aborting and flagging the block) when
three to five bits are set, and unit 1 when six or more bits are set; the
decoded PPO of a region is the count of leading unit-0 ("used") bytes, and
a 3-5-bit byte anywhere in the region aborts decoding instead of
guessing. -/
theorem decode_ppo_byte_table :
    (∀ b : Nat, b < 256 →
      ((bitsSetCard b ≤ 2) → decode_ppo_byte b = .value 0) ∧
      ((3 ≤ bitsSetCard b ∧ bitsSetCard b ≤ 5) → decode_ppo_byte b = .invalid) ∧
      ((6 ≤ bitsSetCard b) → decode_ppo_byte b = .value 1)) ∧
    (∀ region : List Nat, (∃ b ∈ region, decode_ppo_byte b = .invalid) →
      decode_ppo region = none) ∧
    (∀ region : List Nat, (∀ b ∈ region, decode_ppo_byte b ≠ .invalid) →
      decode_ppo region =
        some ((region.takeWhile (fun b => decode_ppo_byte b = .value 0)).length)) := by
  refine ⟨by decide, ?_, ?_⟩
  · intro region ⟨b, hb, hinv⟩
    have hany : region.any (fun b => decode_ppo_byte b = .invalid) = true := by
      simp only [List.any_eq_true, decide_eq_true_eq]
      exact ⟨b, hb, hinv⟩
    unfold decode_ppo
    rw [hany]
    rfl
  · intro region h
    have hany : region.any (fun b => decode_ppo_byte b = .invalid) = false := by
      simp only [List.any_eq_false, decide_eq_true_eq]
      exact h
    unfold decode_ppo
    rw [hany]
    rfl

/-- Witness for C4 at concrete bytes and regions. -/
theorem decode_ppo_byte_table_witness :
    (bitsSetCard 0x40 ≤ 2 ∧ decode_ppo_byte 0x40 = .value 0) ∧
    (3 ≤ bitsSetCard 0x07 ∧ bitsSetCard 0x07 ≤ 5 ∧
      decode_ppo_byte 0x07 = .invalid) ∧
    decode_ppo [0x00, 0x40, 0xff] = some 2 ∧
    decode_ppo [0x00, 0x07, 0xff] = none := by
  refine ⟨⟨by decide, (decode_ppo_byte_table.1 0x40 (by decide)).1 (by decide)⟩,
    ⟨by decide, by decide, (decode_ppo_byte_table.1 0x07 (by decide)).2.1 (by decide)⟩,
    ?_, ?_⟩
  · exact (decode_ppo_byte_table.2.2 [0x00, 0x40, 0xff] (by decide)).trans (by decide)
  · exact decode_ppo_byte_table.2.1 [0x00, 0x07, 0xff] ⟨0x07, by decide, by decide⟩

/-! ## C3: extract / re-allocate round trip -/

/-- C3 fails on the code: ubi_pmap_extract_vol_pebs never flushes a run
that is still open when the scan reaches the end of the device, so on
`c3_map` — whose only run ends at the last PEB — it reports no runs at
all, and re-allocating the reported runs into a fresh map yields the empty
map, not the original. -/
theorem extract_roundtrip_loses_trailing_run :
    ubi_pmap_extract_vol_pebs c3_map = [] ∧
    reallocate_runs c3_ubi (ubi_pmap_extract_vol_pebs c3_map) = ubi_pmap_init c3_ubi ∧
    ubi_pmap_init c3_ubi ≠ c3_map := by
  decide

/-! ## C10: termination of the circular shrink scan -/

theorem c10_no_match (pnum : Nat) :
    ¬((c10_map.getD pnum PmapEntry.empty).vol_id = 1 ∧
      (c10_map.getD pnum PmapEntry.empty).lnum = 2 - 1 ∧
      (c10_map.getD pnum PmapEntry.empty).inuse ∧
      ¬(c10_map.getD pnum PmapEntry.empty).bad) := by
  rcases Nat.lt_or_ge pnum 6 with h | h
  · interval_cases pnum <;> decide
  · have hd : c10_map.getD pnum PmapEntry.empty = PmapEntry.empty := by
      apply List.getD_eq_default
      simpa [c10_map] using h
    rw [hd]
    decide

theorem c10_loop_spins :
    ∀ (fuel pnum : Nat), shrink_loop 1 2 5 1 fuel c10_map pnum 2 = none := by
  intro fuel
  induction fuel with
  | zero => intro pnum; rfl
  | succ n ih =>
      intro pnum
      rw [shrink_loop, if_neg (c10_no_match pnum)]
      exact ih _

/-- C10 fails on the code: on `c10_map` — where a markbad-replace that
found no replacement has left volume 1 without an entry of lnum 1 — the
shrink scan of ubi_pmap_resize_volume loops forever looking for lnum 1: no
amount of fuel makes the embedded loop return. -/
theorem resize_hole_never_terminates (fuel : Nat) :
    ubi_pmap_resize_volume devA c10_map 1 1 fuel = none := by
  show (shrink_loop 1 2 5 1 fuel c10_map 5 2).map (fun m2 => ((0 : Int), m2)) = none
  rw [c10_loop_spins fuel 5]
  rfl

/-! ## C5: markbad-replace -/

theorem vol_reserved_area_last_lt (ubi : UbiDevice) (v : Nat)
    (hR : 0 < ubi.layout_reserved_ebs)
    (hRle : ubi.layout_reserved_ebs ≤ ubi.peb_count) (hpc : 0 < ubi.peb_count) :
    (ubi_pmap_vol_reserved_area ubi v).2 < ubi.peb_count := by
  unfold ubi_pmap_vol_reserved_area
  split <;> simp <;> omega

/-- Zeta-reduced unfolding of ubi_pmap_markbad_replace. -/
theorem markbad_unfold (ubi : UbiDevice) (m : Pmap) (pnum : Nat) :
    ubi_pmap_markbad_replace ubi m pnum =
      (if (m.getD pnum PmapEntry.empty).inuse = true ∧
          ¬((m.getD pnum PmapEntry.empty).bad = true) then
        match (pebRange
            (ubi_pmap_vol_reserved_area ubi (m.getD pnum PmapEntry.empty).vol_id).1
            (ubi_pmap_vol_reserved_area ubi (m.getD pnum PmapEntry.empty).vol_id).2).find?
            (fun j =>
              ¬((m.set pnum { m.getD pnum PmapEntry.empty with
                  bad := true, inuse := false }).getD j PmapEntry.empty).inuse ∧
              ¬((m.set pnum { m.getD pnum PmapEntry.empty with
                  bad := true, inuse := false }).getD j PmapEntry.empty).bad) with
        | some r =>
            ((r : Int),
             (m.set pnum { m.getD pnum PmapEntry.empty with
                 bad := true, inuse := false }).set r
               { (m.set pnum { m.getD pnum PmapEntry.empty with
                   bad := true, inuse := false }).getD r PmapEntry.empty with
                   inuse := true,
                   vol_id := (m.getD pnum PmapEntry.empty).vol_id,
                   lnum := (m.getD pnum PmapEntry.empty).lnum })
        | none =>
            (-12, m.set pnum { m.getD pnum PmapEntry.empty with
                bad := true, inuse := false })
      else
        ((pnum : Int), m.set pnum { m.getD pnum PmapEntry.empty with
            bad := true, inuse := false })) := rfl

/-- C5: ubi_pmap_markbad_replace always leaves the entry at `pnum` bad and
not in use; when the entry was not in use, `pnum` itself is returned and
nothing else changes; when it was in use and not already bad, the
lowest-index free, non-bad PEB of the owner volume's reserved area is put
in use with the same `(vol_id, lnum)` and returned, every other entry
being untouched — and when no free, non-bad PEB exists in the area, the
negative out-of-space error -ENOMEM is returned. -/
theorem markbad_replace_spec (ubi : UbiDevice) (m : Pmap) (pnum : Nat)
    (hR : 0 < ubi.layout_reserved_ebs)
    (hRle : ubi.layout_reserved_ebs ≤ ubi.peb_count)
    (hm : m.length = ubi.peb_count) (hp : pnum < ubi.peb_count) :
    (((ubi_pmap_markbad_replace ubi m pnum).2.getD pnum PmapEntry.empty).bad = true ∧
     ((ubi_pmap_markbad_replace ubi m pnum).2.getD pnum PmapEntry.empty).inuse = false) ∧
    ((m.getD pnum PmapEntry.empty).inuse = false →
      (ubi_pmap_markbad_replace ubi m pnum).1 = (pnum : Int) ∧
      (ubi_pmap_markbad_replace ubi m pnum).2 =
        m.set pnum { m.getD pnum PmapEntry.empty with bad := true, inuse := false }) ∧
    ((m.getD pnum PmapEntry.empty).inuse = true →
     (m.getD pnum PmapEntry.empty).bad = false →
      ((∃ r : Nat,
          (ubi_pmap_markbad_replace ubi m pnum).1 = (r : Int) ∧
          (ubi_pmap_vol_reserved_area ubi (m.getD pnum PmapEntry.empty).vol_id).1 ≤ r ∧
          r ≤ (ubi_pmap_vol_reserved_area ubi (m.getD pnum PmapEntry.empty).vol_id).2 ∧
          (m.getD r PmapEntry.empty).inuse = false ∧
          (m.getD r PmapEntry.empty).bad = false ∧
          (∀ j : Nat,
            (ubi_pmap_vol_reserved_area ubi (m.getD pnum PmapEntry.empty).vol_id).1 ≤ j →
            j < r →
            ¬((m.getD j PmapEntry.empty).inuse = false ∧
              (m.getD j PmapEntry.empty).bad = false)) ∧
          (ubi_pmap_markbad_replace ubi m pnum).2.getD r PmapEntry.empty =
            { vol_id := (m.getD pnum PmapEntry.empty).vol_id,
              lnum := (m.getD pnum PmapEntry.empty).lnum,
              inuse := true, bad := false } ∧
          (∀ q : Nat, q ≠ pnum → q ≠ r →
            (ubi_pmap_markbad_replace ubi m pnum).2.getD q PmapEntry.empty =
              m.getD q PmapEntry.empty)) ∨
       ((ubi_pmap_markbad_replace ubi m pnum).1 = -12 ∧
        (∀ j : Nat,
          (ubi_pmap_vol_reserved_area ubi (m.getD pnum PmapEntry.empty).vol_id).1 ≤ j →
          j ≤ (ubi_pmap_vol_reserved_area ubi (m.getD pnum PmapEntry.empty).vol_id).2 →
          ¬((m.getD j PmapEntry.empty).inuse = false ∧
            (m.getD j PmapEntry.empty).bad = false)) ∧
        (ubi_pmap_markbad_replace ubi m pnum).2 =
          m.set pnum { m.getD pnum PmapEntry.empty with bad := true, inuse := false }))) := by
  have hlen : pnum < m.length := by omega
  have hm1pnum :
      (m.set pnum { m.getD pnum PmapEntry.empty with bad := true, inuse := false }).getD
        pnum PmapEntry.empty =
      { m.getD pnum PmapEntry.empty with bad := true, inuse := false } :=
    getD_set_self m pnum _ _ hlen
  have hm1ne : ∀ q, q ≠ pnum →
      (m.set pnum { m.getD pnum PmapEntry.empty with bad := true, inuse := false }).getD
        q PmapEntry.empty = m.getD q PmapEntry.empty :=
    fun q hq => getD_set_ne m _ _ (Ne.symm hq)
  by_cases hiu : (m.getD pnum PmapEntry.empty).inuse = true
  · by_cases hbad : (m.getD pnum PmapEntry.empty).bad = true
    · -- in use but already bad: no replacement sought, pnum returned
      have hres : ubi_pmap_markbad_replace ubi m pnum =
          ((pnum : Int), m.set pnum { m.getD pnum PmapEntry.empty with
              bad := true, inuse := false }) := by
        rw [markbad_unfold, if_neg (fun hc => hc.2 hbad)]
      refine ⟨?_, ?_, ?_⟩
      · rw [hres]; rw [hm1pnum]; exact ⟨rfl, rfl⟩
      · intro h; rw [h] at hiu; cases hiu
      · intro _ h; rw [h] at hbad; cases hbad
    · -- in use and not bad: replacement path
      have hneed : (m.getD pnum PmapEntry.empty).inuse = true ∧
          ¬((m.getD pnum PmapEntry.empty).bad = true) := ⟨hiu, hbad⟩
      rcases hfind : (pebRange
          (ubi_pmap_vol_reserved_area ubi (m.getD pnum PmapEntry.empty).vol_id).1
          (ubi_pmap_vol_reserved_area ubi (m.getD pnum PmapEntry.empty).vol_id).2).find?
          (fun j =>
            ¬((m.set pnum { m.getD pnum PmapEntry.empty with
                bad := true, inuse := false }).getD j PmapEntry.empty).inuse ∧
            ¬((m.set pnum { m.getD pnum PmapEntry.empty with
                bad := true, inuse := false }).getD j PmapEntry.empty).bad)
          with _ | r
      · -- no free PEB: -ENOMEM
        have hres : ubi_pmap_markbad_replace ubi m pnum =
            (-12, m.set pnum { m.getD pnum PmapEntry.empty with
                bad := true, inuse := false }) := by
          rw [markbad_unfold, if_pos hneed, hfind]
        have hnone := find?_pebRange_none hfind
        refine ⟨?_, ?_, ?_⟩
        · rw [hres]; rw [hm1pnum]; exact ⟨rfl, rfl⟩
        · intro h; rw [h] at hiu; cases hiu
        · intro _ _
          refine .inr ⟨by rw [hres], ?_, by rw [hres]⟩
          intro j h1 h2 hfg
          have hj' := hnone j h1 h2
          simp only [decide_eq_false_iff_not, Bool.not_eq_true] at hj'
          by_cases hj : j = pnum
          · subst hj; rw [hfg.1] at hiu; cases hiu
          · rw [hm1ne j hj] at hj'
            exact hj' ⟨hfg.1, hfg.2⟩
      · -- replacement found
        obtain ⟨hpr, hfr, hlr, hmin⟩ := find?_pebRange_some hfind
        simp only [decide_eq_true_eq, Bool.not_eq_true] at hpr
        have hrpnum : r ≠ pnum := by
          intro hrp
          rw [hrp, hm1pnum] at hpr
          exact absurd hpr.2 (by simp)
        have hmr :
            (m.set pnum { m.getD pnum PmapEntry.empty with
                bad := true, inuse := false }).getD r PmapEntry.empty =
            m.getD r PmapEntry.empty := hm1ne r hrpnum
        have hrlt : r < (m.set pnum { m.getD pnum PmapEntry.empty with
            bad := true, inuse := false }).length := by
          rw [List.length_set, hm]
          exact Nat.lt_of_le_of_lt hlr
            (vol_reserved_area_last_lt ubi _ hR hRle (by omega))
        have hres : ubi_pmap_markbad_replace ubi m pnum =
            ((r : Int),
             (m.set pnum { m.getD pnum PmapEntry.empty with
                 bad := true, inuse := false }).set r
               { (m.set pnum { m.getD pnum PmapEntry.empty with
                   bad := true, inuse := false }).getD r PmapEntry.empty with
                   inuse := true,
                   vol_id := (m.getD pnum PmapEntry.empty).vol_id,
                   lnum := (m.getD pnum PmapEntry.empty).lnum }) := by
          rw [markbad_unfold, if_pos hneed, hfind]
        refine ⟨?_, ?_, ?_⟩
        · rw [hres]
          rw [getD_set_ne _ _ _ hrpnum, hm1pnum]
          exact ⟨rfl, rfl⟩
        · intro h; rw [h] at hiu; cases hiu
        · intro _ _
          refine .inl ⟨r, by rw [hres], hfr, hlr, ?_, ?_, ?_, ?_, ?_⟩
          · rw [← hmr]; exact hpr.1
          · rw [← hmr]; exact hpr.2
          · intro j h1 h2 hfg
            by_cases hj : j = pnum
            · subst hj; rw [hfg.1] at hiu; cases hiu
            · have hj' := hmin j h1 h2
              simp only [decide_eq_false_iff_not, Bool.not_eq_true] at hj'
              rw [hm1ne j hj] at hj'
              exact hj' ⟨hfg.1, hfg.2⟩
          · rw [hres]
            rw [getD_set_self _ r _ _ hrlt]
            rw [hmr]
            have hb : (m.getD r PmapEntry.empty).bad = false := by rw [← hmr]; exact hpr.2
            cases hrec : m.getD r PmapEntry.empty with
            | mk a b c d =>
                rw [hrec] at hb
                simp only at hb
                subst hb
                rfl
          · intro q hq hqr
            rw [hres]
            rw [getD_set_ne _ _ _ (Ne.symm hqr), hm1ne q hq]
  · -- not in use: pnum returned, only the entry itself changes
    have hres : ubi_pmap_markbad_replace ubi m pnum =
        ((pnum : Int), m.set pnum { m.getD pnum PmapEntry.empty with
            bad := true, inuse := false }) := by
      rw [markbad_unfold, if_neg (fun hc => hiu hc.1)]
    refine ⟨?_, ?_, ?_⟩
    · rw [hres]; rw [hm1pnum]; exact ⟨rfl, rfl⟩
    · intro _; exact ⟨by rw [hres], by rw [hres]⟩
    · intro h; rw [h] at hiu; cases hiu rfl

/-- Witness for C5: marking PEB 2 of `c5_map` bad replaces it with PEB 4
(the lowest free, non-bad PEB of volume 1's area). -/
theorem markbad_replace_spec_witness :
    (0 < devA.layout_reserved_ebs ∧ devA.layout_reserved_ebs ≤ devA.peb_count ∧
     c5_map.length = devA.peb_count ∧ 2 < devA.peb_count) ∧
    ((ubi_pmap_markbad_replace devA c5_map 2).2.getD 2 PmapEntry.empty).bad = true ∧
    ((ubi_pmap_markbad_replace devA c5_map 2).2.getD 2 PmapEntry.empty).inuse = false ∧
    (ubi_pmap_markbad_replace devA c5_map 2).1 = 4 ∧
    (ubi_pmap_markbad_replace devA c5_map 2).2.getD 4 PmapEntry.empty =
      { vol_id := 1, lnum := 0, inuse := true, bad := false } :=
  ⟨⟨by decide, by decide, by decide, by decide⟩,
   (markbad_replace_spec devA c5_map 2 (by decide) (by decide) (by decide) (by decide)).1.1,
   (markbad_replace_spec devA c5_map 2 (by decide) (by decide) (by decide) (by decide)).1.2,
   by decide, by decide⟩

/-! ## C8: the bad/inuse exclusion invariant -/

theorem PmapInv_init (ubi : UbiDevice) : PmapInv (ubi_pmap_init ubi) := by
  intro e he
  rw [ubi_pmap_init] at he
  rw [List.eq_of_mem_replicate he]
  exact .inl rfl

theorem PmapInv_set {m : Pmap} {i : Nat} {e : PmapEntry} (h : PmapInv m)
    (he : e.inuse = false ∨ e.bad = false) : PmapInv (m.set i e) := by
  intro e' he'
  rcases List.mem_or_eq_of_mem_set he' with hmem | rfl
  · exact h e' hmem
  · exact he

theorem PmapInv_allocate_write {vol_id peb leb : Nat} {bad : Bool} :
    ∀ (blocks : Nat) {m : Pmap}, PmapInv m →
      PmapInv (allocate_write vol_id peb leb bad blocks m) := by
  intro blocks
  induction blocks with
  | zero => intro m h; exact h
  | succ i ih =>
      intro m h
      apply PmapInv_set (ih h)
      cases bad
      · exact .inr rfl
      · exact .inl rfl

theorem PmapInv_allocate {ubi : UbiDevice} {m m' : Pmap}
    {vol_id peb leb blocks : Nat} {bad : Bool}
    (h : PmapInv m)
    (hres : ubi_pmap_allocate_vol_pebs ubi m vol_id peb leb blocks bad = .ok m') :
    PmapInv m' := by
  simp only [ubi_pmap_allocate_vol_pebs] at hres
  split at hres
  · cases hres
  · split at hres
    · cases hres
    · cases hres
      exact PmapInv_allocate_write blocks h

theorem PmapInv_resize_clear {vol_id : Nat} :
    ∀ (l : List Nat) {m : Pmap}, PmapInv m → PmapInv (resize_clear vol_id l m) := by
  intro l
  induction l with
  | nil => intro m h; exact h
  | cons p rest ih =>
      intro m h
      rw [resize_clear]
      split
      · exact ih (PmapInv_set h (.inl rfl))
      · exact ih h

theorem PmapInv_resize_grow {vol_id reserved_pebs : Nat} :
    ∀ (l : List Nat) {m : Pmap} {lnum : Nat}, PmapInv m →
      PmapInv (resize_grow vol_id reserved_pebs l m lnum).1 := by
  intro l
  induction l with
  | nil => intro m lnum h; exact h
  | cons p rest ih =>
      intro m lnum h
      rw [resize_grow]
      split
      · rename_i hfree
        have hset : PmapInv (m.set p { m.getD p PmapEntry.empty with
            inuse := true, vol_id := vol_id, lnum := lnum }) := by
          apply PmapInv_set h
          refine .inr ?_
          have := hfree.2
          simpa using this
        split
        · exact hset
        · exact ih hset
      · exact ih h

theorem PmapInv_shrink_loop {vol_id first_peb last_peb reserved_pebs : Nat} :
    ∀ (fuel : Nat) {m m' : Pmap} {pnum lnum : Nat}, PmapInv m →
      shrink_loop vol_id first_peb last_peb reserved_pebs fuel m pnum lnum = some m' →
      PmapInv m' := by
  intro fuel
  induction fuel with
  | zero => intro m m' pnum lnum _ h; cases h
  | succ n ih =>
      intro m m' pnum lnum hinv h
      rw [shrink_loop] at h
      split at h
      · have hset : PmapInv (m.set pnum { m.getD pnum PmapEntry.empty with
            inuse := false }) := PmapInv_set hinv (.inl rfl)
        split at h
        · cases h; exact hset
        · exact ih hset h
      · exact ih hinv h

theorem PmapInv_resize {ubi : UbiDevice} {m m' : Pmap} {vol_id reserved_pebs fuel : Nat}
    {r : Int} (h : PmapInv m)
    (hres : ubi_pmap_resize_volume ubi m vol_id reserved_pebs fuel = some (r, m')) :
    PmapInv m' := by
  simp only [ubi_pmap_resize_volume] at hres
  split at hres
  · cases hres
    exact PmapInv_resize_clear _ h
  · split at hres
    · -- the volume grew
      split at hres
      · rcases Option.map_eq_some'.mp hres with ⟨m2, hm2, hpair⟩
        cases hpair
        exact PmapInv_shrink_loop fuel (PmapInv_resize_grow _ h) hm2
      · cases hres
        exact PmapInv_resize_grow _ h
    · -- no growth
      split at hres
      · rcases Option.map_eq_some'.mp hres with ⟨m2, hm2, hpair⟩
        cases hpair
        exact PmapInv_shrink_loop fuel h hm2
      · cases hres
        exact h

theorem PmapInv_markbad {ubi : UbiDevice} {m : Pmap} {pnum : Nat} (h : PmapInv m) :
    PmapInv (ubi_pmap_markbad_replace ubi m pnum).2 := by
  rw [markbad_unfold]
  have hm1 : PmapInv (m.set pnum { m.getD pnum PmapEntry.empty with
      bad := true, inuse := false }) := PmapInv_set h (.inl rfl)
  split
  · split
    · -- a replacement PEB was found
      rename_i r heq
      refine PmapInv_set hm1 (.inr ?_)
      have hpr := List.find?_some heq
      simp only [decide_eq_true_eq, Bool.not_eq_true] at hpr
      exact hpr.2
    · exact hm1
  · exact hm1

theorem runOps_foldl_inv (ubi : UbiDevice) :
    ∀ (ops : List PmapOp) {m : Pmap}, PmapInv m →
      PmapInv (ops.foldl (applyOp ubi) m) := by
  intro ops
  induction ops with
  | nil => intro m h; exact h
  | cons op rest ih =>
      intro m h
      rw [List.foldl_cons]
      apply ih
      cases op with
      | allocate vol_id peb leb blocks bad =>
          rw [applyOp]
          rcases hres : ubi_pmap_allocate_vol_pebs ubi m vol_id peb leb blocks bad
            with e | m'
          · exact h
          · exact PmapInv_allocate h hres
      | resize vol_id reserved_pebs fuel =>
          rw [applyOp]
          rcases hres : ubi_pmap_resize_volume ubi m vol_id reserved_pebs fuel
            with _ | ⟨r, m'⟩
          · exact h
          · exact PmapInv_resize h hres
      | markbad pnum => exact PmapInv_markbad h

/-- C8: after every sequence of allocateRange, resize and
markBadAndReplace operations starting from a freshly initialised PEB map,
no entry ever has its bad flag and its inuse flag both set. -/
theorem pmap_ops_preserve_inv (ubi : UbiDevice) (ops : List PmapOp) :
    PmapInv (runOps ubi ops) := by
  rw [runOps]
  exact runOps_foldl_inv ubi ops (PmapInv_init ubi)

/-! ## C9: bad PEBs are never looked up or chosen again -/

theorem resize_grow_untouched {vol_id reserved_pebs p : Nat} :
    ∀ (l : List Nat) {m : Pmap} {lnum : Nat},
      (m.getD p PmapEntry.empty).bad = true →
      ((resize_grow vol_id reserved_pebs l m lnum).1).getD p PmapEntry.empty =
        m.getD p PmapEntry.empty := by
  intro l
  induction l with
  | nil => intro m lnum _; rfl
  | cons q rest ih =>
      intro m lnum hbad
      rw [resize_grow]
      split
      · rename_i hfree
        have hqp : q ≠ p := by
          intro h; subst h; exact hfree.2 hbad
        have hset : (m.set q { m.getD q PmapEntry.empty with
            inuse := true, vol_id := vol_id, lnum := lnum }).getD p PmapEntry.empty =
            m.getD p PmapEntry.empty := getD_set_ne m _ _ hqp
        split
        · exact hset
        · have hbad' : ((m.set q { m.getD q PmapEntry.empty with
              inuse := true, vol_id := vol_id, lnum := lnum }).getD p
                PmapEntry.empty).bad = true := by
            rw [hset]; exact hbad
          rw [ih hbad', hset]
      · exact ih hbad

theorem shrink_loop_untouched {vol_id first_peb last_peb reserved_pebs p : Nat} :
    ∀ (fuel : Nat) {m m' : Pmap} {pnum lnum : Nat},
      (m.getD p PmapEntry.empty).bad = true →
      shrink_loop vol_id first_peb last_peb reserved_pebs fuel m pnum lnum = some m' →
      m'.getD p PmapEntry.empty = m.getD p PmapEntry.empty := by
  intro fuel
  induction fuel with
  | zero => intro m m' pnum lnum _ h; cases h
  | succ n ih =>
      intro m m' pnum lnum hbad h
      rw [shrink_loop] at h
      split at h
      · rename_i hguard
        have hqp : pnum ≠ p := by
          intro he; subst he; exact hguard.2.2.2 hbad
        have hset : (m.set pnum { m.getD pnum PmapEntry.empty with
            inuse := false }).getD p PmapEntry.empty = m.getD p PmapEntry.empty :=
          getD_set_ne m _ _ hqp
        split at h
        · cases h; exact hset
        · have hbad' : ((m.set pnum { m.getD pnum PmapEntry.empty with
              inuse := false }).getD p PmapEntry.empty).bad = true := by
            rw [hset]; exact hbad
          rw [ih hbad' h, hset]
      · exact ih hbad h

theorem markbad_untouched (ubi : UbiDevice) {m : Pmap} {p q : Nat}
    (hbad : (m.getD p PmapEntry.empty).bad = true) (hqp : q ≠ p) :
    (ubi_pmap_markbad_replace ubi m q).2.getD p PmapEntry.empty =
      m.getD p PmapEntry.empty := by
  rw [markbad_unfold]
  have hm1 : (m.set q { m.getD q PmapEntry.empty with
      bad := true, inuse := false }).getD p PmapEntry.empty =
      m.getD p PmapEntry.empty := getD_set_ne m _ _ hqp
  split
  · split
    · rename_i r heq
      have hpr := List.find?_some heq
      simp only [decide_eq_true_eq, Bool.not_eq_true] at hpr
      have hrp : r ≠ p := by
        intro he; subst he
        rw [hm1, hbad] at hpr
        cases hpr.2
      show ((m.set q _).set r _).getD p PmapEntry.empty = _
      rw [getD_set_ne _ _ _ hrp, hm1]
    · exact hm1
  · exact hm1

/-- C9: for any map state, two successful lookups returning the same pnum
belong to the same `(vol_id, lnum)` (one owner per pnum); a pnum whose
entry is bad-flagged is never returned by ubi_pmap_lookup_pnum, is never
touched — in particular never newly allocated — by a non-destroying
ubi_pmap_resize_volume, and is never chosen by the replacement search of
ubi_pmap_markbad_replace applied to another pnum. -/
theorem pmap_bad_exclusion (ubi : UbiDevice) (m : Pmap) (p : Nat)
    (hbad : (m.getD p PmapEntry.empty).bad = true) :
    (∀ v1 l1 v2 l2 q, ubi_pmap_lookup_pnum ubi m v1 l1 = some q →
        ubi_pmap_lookup_pnum ubi m v2 l2 = some q → v1 = v2 ∧ l1 = l2) ∧
    (∀ v l, ubi_pmap_lookup_pnum ubi m v l ≠ some p) ∧
    (∀ v n fuel r m', n ≠ 0 →
        ubi_pmap_resize_volume ubi m v n fuel = some (r, m') →
        m'.getD p PmapEntry.empty = m.getD p PmapEntry.empty) ∧
    (∀ q, q ≠ p →
        (ubi_pmap_markbad_replace ubi m q).2.getD p PmapEntry.empty =
          m.getD p PmapEntry.empty) := by
  refine ⟨?_, ?_, ?_, ?_⟩
  · intro v1 l1 v2 l2 q h1 h2
    have hp1 := List.find?_some h1
    have hp2 := List.find?_some h2
    simp only [decide_eq_true_eq] at hp1 hp2
    exact ⟨hp1.1 ▸ hp2.1.symm ▸ rfl, hp1.2.1 ▸ hp2.2.1.symm ▸ rfl⟩
  · intro v l h
    have hp := List.find?_some h
    simp only [decide_eq_true_eq, Bool.not_eq_true] at hp
    rw [hbad] at hp
    cases hp.2.2.2
  · intro v n fuel r m' hn hres
    simp only [ubi_pmap_resize_volume] at hres
    split at hres
    · rename_i h0; exact absurd h0 hn
    · split at hres
      · -- grew
        split at hres
        · rcases Option.map_eq_some'.mp hres with ⟨m2, hm2, hpair⟩
          cases hpair
          have hbadg : (((resize_grow v n (pebRange
              (ubi_pmap_vol_reserved_area ubi v).1
              (ubi_pmap_vol_reserved_area ubi v).2) m
              (ubi_pmap_vol_peb_count ubi m v)).1).getD p PmapEntry.empty).bad
              = true := by
            rw [resize_grow_untouched _ hbad]; exact hbad
          rw [shrink_loop_untouched fuel hbadg hm2, resize_grow_untouched _ hbad]
        · cases hres
          exact resize_grow_untouched _ hbad
      · -- no growth
        split at hres
        · rcases Option.map_eq_some'.mp hres with ⟨m2, hm2, hpair⟩
          cases hpair
          exact shrink_loop_untouched fuel hbad hm2
        · cases hres
          rfl
  · intro q hq
    exact markbad_untouched ubi hbad hq

/-- Witness for C9 on `c9_map`, whose PEB 4 is bad-flagged. -/
theorem pmap_bad_exclusion_witness :
    (c9_map.getD 4 PmapEntry.empty).bad = true ∧
    ubi_pmap_lookup_pnum devA c9_map 1 0 ≠ some 4 ∧
    (2 : Nat) ≠ 4 ∧
    (ubi_pmap_markbad_replace devA c9_map 2).2.getD 4 PmapEntry.empty =
      c9_map.getD 4 PmapEntry.empty :=
  ⟨by decide,
   (pmap_bad_exclusion devA c9_map 4 (by decide)).2.1 1 0,
   by decide,
   (pmap_bad_exclusion devA c9_map 4 (by decide)).2.2.2 2 (by decide)⟩

/-! ## C7: growth beyond the available free PEBs -/

/-- C7 fails as stated: growing volume 1 of `c7_map` to 5 reserved PEBs
when only one free, non-bad PEB remains keeps the partial growth (PEB 5 is
allocated, the volume ends at 3 of the requested 5 PEBs) but returns plain
0 — exactly the value, and indeed the identical result, of the fully
satisfiable resize to 3.  The return value does not report the
shortfall. -/
theorem resize_growth_shortfall_returns_zero :
    ubi_pmap_resize_volume devA c7_map 1 5 9 =
      some (0, [PmapEntry.empty, PmapEntry.empty, ⟨1, 0, true, false⟩,
        ⟨1, 1, true, false⟩, ⟨0, 0, false, true⟩, ⟨1, 2, true, false⟩]) ∧
    ubi_pmap_vol_peb_count devA
      [PmapEntry.empty, PmapEntry.empty, ⟨1, 0, true, false⟩,
        ⟨1, 1, true, false⟩, ⟨0, 0, false, true⟩, ⟨1, 2, true, false⟩] 1 = 3 ∧
    (3 : Nat) < 5 ∧
    ubi_pmap_resize_volume devA c7_map 1 3 9 =
      some (0, [PmapEntry.empty, PmapEntry.empty, ⟨1, 0, true, false⟩,
        ⟨1, 1, true, false⟩, ⟨0, 0, false, true⟩, ⟨1, 2, true, false⟩]) := by
  decide

/-- When fewer free PEBs exist than the requested growth, the growth loop
walks its whole pnum list: every free, non-bad entry is allocated to the
volume, everything else is untouched, and the final lnum counter is the
old count plus the number of free entries. -/
theorem resize_grow_all {vol_id target : Nat} :
    ∀ (l : List Nat) {m : Pmap} {lnum : Nat}, l.Nodup →
      (∀ p ∈ l, p < m.length) →
      lnum + l.countP (fun q => ¬(m.getD q PmapEntry.empty).inuse ∧
          ¬(m.getD q PmapEntry.empty).bad) < target →
      ((resize_grow vol_id target l m lnum).2 =
        lnum + l.countP (fun q => ¬(m.getD q PmapEntry.empty).inuse ∧
          ¬(m.getD q PmapEntry.empty).bad)) ∧
      (∀ p, p ∈ l →
        (m.getD p PmapEntry.empty).inuse = false →
        (m.getD p PmapEntry.empty).bad = false →
        ((resize_grow vol_id target l m lnum).1.getD p PmapEntry.empty).inuse = true ∧
        ((resize_grow vol_id target l m lnum).1.getD p PmapEntry.empty).vol_id = vol_id ∧
        ((resize_grow vol_id target l m lnum).1.getD p PmapEntry.empty).bad = false) ∧
      (∀ p, (p ∉ l ∨ (m.getD p PmapEntry.empty).inuse = true ∨
          (m.getD p PmapEntry.empty).bad = true) →
        (resize_grow vol_id target l m lnum).1.getD p PmapEntry.empty =
          m.getD p PmapEntry.empty) := by
  intro l
  induction l with
  | nil =>
      intro m lnum _ _ _
      refine ⟨by simp [resize_grow], ?_, ?_⟩
      · intro p hp; cases hp
      · intro p _; rfl
  | cons q rest ih =>
      intro m lnum hnd hlen hlt
      obtain ⟨hqrest, hndrest⟩ := List.nodup_cons.mp hnd
      rw [resize_grow]
      by_cases hfree : ¬(m.getD q PmapEntry.empty).inuse = true ∧
          ¬(m.getD q PmapEntry.empty).bad = true
      · rw [if_pos hfree]
        have hcnt : (q :: rest).countP (fun j => ¬(m.getD j PmapEntry.empty).inuse ∧
            ¬(m.getD j PmapEntry.empty).bad) =
            rest.countP (fun j => ¬(m.getD j PmapEntry.empty).inuse ∧
              ¬(m.getD j PmapEntry.empty).bad) + 1 :=
          List.countP_cons_of_pos _ _ (by simpa using hfree)
        rw [hcnt] at hlt
        have hne : ¬(lnum + 1 = target) := by omega
        rw [if_neg hne]
        have hsetne : ∀ p, p ≠ q →
            (m.set q { m.getD q PmapEntry.empty with
              inuse := true, vol_id := vol_id, lnum := lnum }).getD p PmapEntry.empty =
            m.getD p PmapEntry.empty :=
          fun p hp => getD_set_ne m _ _ (fun he => hp he.symm)
        have hcnteq : rest.countP (fun j =>
            ¬((m.set q { m.getD q PmapEntry.empty with
                inuse := true, vol_id := vol_id, lnum := lnum }).getD j
                PmapEntry.empty).inuse ∧
            ¬((m.set q { m.getD q PmapEntry.empty with
                inuse := true, vol_id := vol_id, lnum := lnum }).getD j
                PmapEntry.empty).bad) =
            rest.countP (fun j => ¬(m.getD j PmapEntry.empty).inuse ∧
              ¬(m.getD j PmapEntry.empty).bad) := by
          apply List.countP_congr
          intro x hx
          rw [hsetne x (fun he => hqrest (he ▸ hx))]
        obtain ⟨ih1, ih2, ih3⟩ := @ih (m.set q { m.getD q PmapEntry.empty with
            inuse := true, vol_id := vol_id, lnum := lnum }) (lnum + 1) hndrest
          (by
            intro p hp
            rw [List.length_set]
            exact hlen p (List.mem_cons_of_mem q hp))
          (by rw [hcnteq]; omega)
        refine ⟨?_, ?_, ?_⟩
        · rw [ih1, hcnteq]; omega
        · intro p hp hinuse hbad
          rcases List.mem_cons.mp hp with rfl | hprest
          · have huntouched := ih3 p (.inl hqrest)
            rw [huntouched, getD_set_self m p _ _ (hlen p (List.mem_cons_self p rest))]
            exact ⟨rfl, rfl, by simpa using hfree.2⟩
          · have hfree' : ((m.set q { m.getD q PmapEntry.empty with
                inuse := true, vol_id := vol_id, lnum := lnum }).getD p
                PmapEntry.empty).inuse = false ∧
                ((m.set q { m.getD q PmapEntry.empty with
                  inuse := true, vol_id := vol_id, lnum := lnum }).getD p
                  PmapEntry.empty).bad = false := by
              rw [hsetne p (fun he => hqrest (he ▸ hprest))]
              exact ⟨hinuse, hbad⟩
            exact ih2 p hprest hfree'.1 hfree'.2
        · intro p hp
          rcases hp with hnotin | hinuse | hbad
          · have hpq : p ≠ q := fun he => hnotin (he ▸ List.mem_cons_self q rest)
            have hprest : p ∉ rest := fun hc => hnotin (List.mem_cons_of_mem q hc)
            rw [ih3 p (.inl hprest), hsetne p hpq]
          · have hpq : p ≠ q := by
              intro he; subst he; exact hfree.1 hinuse
            refine (ih3 p (.inr ?_)).trans (hsetne p hpq)
            rw [hsetne p hpq]
            exact .inl hinuse
          · have hpq : p ≠ q := by
              intro he; subst he; exact hfree.2 hbad
            refine (ih3 p (.inr ?_)).trans (hsetne p hpq)
            rw [hsetne p hpq]
            exact .inr hbad
      · rw [if_neg hfree]
        have hcnt : (q :: rest).countP (fun j => ¬(m.getD j PmapEntry.empty).inuse ∧
            ¬(m.getD j PmapEntry.empty).bad) =
            rest.countP (fun j => ¬(m.getD j PmapEntry.empty).inuse ∧
              ¬(m.getD j PmapEntry.empty).bad) :=
          List.countP_cons_of_neg _ _ (by simpa using hfree)
        rw [hcnt] at hlt
        obtain ⟨ih1, ih2, ih3⟩ := @ih m lnum hndrest
          (fun p hp => hlen p (List.mem_cons_of_mem q hp)) hlt
        refine ⟨by rw [ih1, hcnt], ?_, ?_⟩
        · intro p hp hinuse hbad
          rcases List.mem_cons.mp hp with rfl | hprest
          · exact absurd ⟨by simp only [hinuse]; exact Bool.false_ne_true,
              by simp only [hbad]; exact Bool.false_ne_true⟩ hfree
          · exact ih2 p hprest hinuse hbad
        · intro p hp
          rcases hp with hnotin | hother
          · exact ih3 p (.inl (fun hc => hnotin (List.mem_cons_of_mem q hc)))
          · by_cases hprest : p ∈ rest
            · exact ih3 p (.inr hother)
            · exact ih3 p (.inl hprest)

/-- C7 as amended: when a volume is grown beyond the number of free,
non-bad PEBs available in its reserved area, ubi_pmap_resize_volume keeps
the partial growth — every free, non-bad PEB of the area is allocated to
the volume, nothing is rolled back, every other entry is untouched — and
returns plain 0; the shortfall is not reported by the return value. -/
theorem resize_partial_growth (ubi : UbiDevice) (m : Pmap) (vol_id target fuel : Nat)
    (hm : m.length = ubi.peb_count)
    (hR : 0 < ubi.layout_reserved_ebs)
    (hRle : ubi.layout_reserved_ebs ≤ ubi.peb_count)
    (hpc : 0 < ubi.peb_count)
    (hshort : ubi_pmap_vol_peb_count ubi m vol_id +
        (pebRange (ubi_pmap_vol_reserved_area ubi vol_id).1
          (ubi_pmap_vol_reserved_area ubi vol_id).2).countP
          (fun q => ¬(m.getD q PmapEntry.empty).inuse ∧
            ¬(m.getD q PmapEntry.empty).bad) < target) :
    ∃ m' : Pmap, ubi_pmap_resize_volume ubi m vol_id target fuel = some (0, m') ∧
      (∀ p, p ∈ pebRange (ubi_pmap_vol_reserved_area ubi vol_id).1
          (ubi_pmap_vol_reserved_area ubi vol_id).2 →
        (m.getD p PmapEntry.empty).inuse = false →
        (m.getD p PmapEntry.empty).bad = false →
        (m'.getD p PmapEntry.empty).inuse = true ∧
        (m'.getD p PmapEntry.empty).vol_id = vol_id) ∧
      (∀ p, (p ∉ pebRange (ubi_pmap_vol_reserved_area ubi vol_id).1
              (ubi_pmap_vol_reserved_area ubi vol_id).2 ∨
            (m.getD p PmapEntry.empty).inuse = true ∨
            (m.getD p PmapEntry.empty).bad = true) →
        m'.getD p PmapEntry.empty = m.getD p PmapEntry.empty) := by
  have hlast := vol_reserved_area_last_lt ubi vol_id hR hRle hpc
  have hlen' : ∀ p ∈ pebRange (ubi_pmap_vol_reserved_area ubi vol_id).1
      (ubi_pmap_vol_reserved_area ubi vol_id).2, p < m.length := by
    intro p hp
    have := (mem_pebRange.mp hp).2
    omega
  obtain ⟨g1, g2, g3⟩ := @resize_grow_all vol_id target
    (pebRange (ubi_pmap_vol_reserved_area ubi vol_id).1
      (ubi_pmap_vol_reserved_area ubi vol_id).2)
    m (ubi_pmap_vol_peb_count ubi m vol_id)
    (pebRange_nodup _ _) hlen' hshort
  refine ⟨(resize_grow vol_id target (pebRange (ubi_pmap_vol_reserved_area ubi vol_id).1
      (ubi_pmap_vol_reserved_area ubi vol_id).2) m
      (ubi_pmap_vol_peb_count ubi m vol_id)).1, ?_, ?_, ?_⟩
  · simp only [ubi_pmap_resize_volume]
    rw [if_neg (show ¬(target = 0) by omega)]
    rw [if_pos (show ubi_pmap_vol_peb_count ubi m vol_id < target by omega)]
    rw [if_neg (show ¬((resize_grow vol_id target
        (pebRange (ubi_pmap_vol_reserved_area ubi vol_id).1
          (ubi_pmap_vol_reserved_area ubi vol_id).2) m
        (ubi_pmap_vol_peb_count ubi m vol_id)).2 > target) by rw [g1]; omega)]
  · intro p hp h1 h2
    exact ⟨(g2 p hp h1 h2).1, (g2 p hp h1 h2).2.1⟩
  · exact g3

/-- Witness for the amended C7 on `c7_map`: volume 1 holds 2 PEBs, one
free PEB remains, and a resize to 5 is requested. -/
theorem resize_partial_growth_witness :
    (c7_map.length = devA.peb_count ∧ 0 < devA.layout_reserved_ebs ∧
     devA.layout_reserved_ebs ≤ devA.peb_count ∧ 0 < devA.peb_count ∧
     ubi_pmap_vol_peb_count devA c7_map 1 +
        (pebRange (ubi_pmap_vol_reserved_area devA 1).1
          (ubi_pmap_vol_reserved_area devA 1).2).countP
          (fun q => ¬(c7_map.getD q PmapEntry.empty).inuse ∧
            ¬(c7_map.getD q PmapEntry.empty).bad) < 5) ∧
    (∃ m' : Pmap, ubi_pmap_resize_volume devA c7_map 1 5 9 = some (0, m') ∧
      (∀ p, p ∈ pebRange (ubi_pmap_vol_reserved_area devA 1).1
          (ubi_pmap_vol_reserved_area devA 1).2 →
        (c7_map.getD p PmapEntry.empty).inuse = false →
        (c7_map.getD p PmapEntry.empty).bad = false →
        (m'.getD p PmapEntry.empty).inuse = true ∧
        (m'.getD p PmapEntry.empty).vol_id = 1) ∧
      (∀ p, (p ∉ pebRange (ubi_pmap_vol_reserved_area devA 1).1
              (ubi_pmap_vol_reserved_area devA 1).2 ∨
            (c7_map.getD p PmapEntry.empty).inuse = true ∨
            (c7_map.getD p PmapEntry.empty).bad = true) →
        m'.getD p PmapEntry.empty = c7_map.getD p PmapEntry.empty)) :=
  ⟨⟨by decide, by decide, by decide, by decide, by decide⟩,
   resize_partial_growth devA c7_map 1 5 9 (by decide) (by decide) (by decide)
     (by decide) (by decide)⟩

/-! ## C6: shrinking removes from the logical end; reserved_pebs == 0
destroys the volume -/

/-- Walking the circular scan downwards from `pnum`, every position until
the unique matching one is skipped; `d` is the number of skipped steps. -/
theorem shrink_skip {vol_id first_peb last_peb reserved_pebs : Nat} {m : Pmap}
    {lnum qpos : Nat}
    (hq1 : first_peb ≤ qpos) (hq2 : qpos ≤ last_peb)
    (hnomatch : ∀ j, first_peb ≤ j → j ≤ last_peb → j ≠ qpos →
      ¬((m.getD j PmapEntry.empty).vol_id = vol_id ∧
        (m.getD j PmapEntry.empty).lnum = lnum - 1 ∧
        (m.getD j PmapEntry.empty).inuse = true ∧
        ¬((m.getD j PmapEntry.empty).bad = true))) :
    ∀ (d pnum : Nat), first_peb ≤ pnum → pnum ≤ last_peb →
      (if qpos ≤ pnum then pnum - qpos
       else (pnum - first_peb) + 1 + (last_peb - qpos)) = d →
      ∀ (fuel : Nat),
        shrink_loop vol_id first_peb last_peb reserved_pebs (fuel + d) m pnum lnum =
        shrink_loop vol_id first_peb last_peb reserved_pebs fuel m qpos lnum := by
  intro d
  induction d with
  | zero =>
      intro pnum h1 h2 hd fuel
      have hpq : pnum = qpos := by
        by_cases hle : qpos ≤ pnum
        · rw [if_pos hle] at hd; omega
        · rw [if_neg hle] at hd; omega
      subst hpq
      rfl
  | succ d ih =>
      intro pnum h1 h2 hd fuel
      have hpq : pnum ≠ qpos := by
        intro he
        subst he
        rw [if_pos (Nat.le_refl _)] at hd
        omega
      rw [Nat.add_succ, shrink_loop, if_neg (hnomatch pnum h1 h2 hpq)]
      by_cases hple : pnum ≤ first_peb
      · have hpf : pnum = first_peb := by omega
        have hnext : shrink_next first_peb last_peb pnum = last_peb := by
          rw [shrink_next, if_pos hple]
        rw [hnext]
        apply ih last_peb (by omega) (by omega) _ fuel
        rw [if_pos hq2]
        subst hpf
        by_cases hle : qpos ≤ pnum
        · have : qpos = pnum := by omega
          exact absurd this.symm hpq
        · rw [if_neg hle] at hd
          omega
      · have hnext : shrink_next first_peb last_peb pnum = pnum - 1 := by
          rw [shrink_next, if_neg hple]
        rw [hnext]
        apply ih (pnum - 1) (by omega) (by omega) _ fuel
        by_cases hle : qpos ≤ pnum
        · rw [if_pos hle] at hd
          rw [if_pos (by omega)]
          omega
        · rw [if_neg hle] at hd
          rw [if_neg (by omega)]
          omega

/-- The circular shrink scan, started anywhere in the area on a map whose
in-use, non-bad entries of the volume carry each lnum of
`[target, lnum)` exactly once within the area, terminates (with enough
fuel) and clears `inuse` of exactly those entries. -/
theorem shrink_correct {vol_id first_peb last_peb target : Nat} :
    ∀ (k : Nat) (m : Pmap) (pnum lnum : Nat),
      first_peb ≤ pnum → pnum ≤ last_peb → last_peb < m.length →
      lnum = target + k → 0 < k →
      (∀ ln, target ≤ ln → ln < lnum →
        ∃! q, (first_peb ≤ q ∧ q ≤ last_peb) ∧
          (m.getD q PmapEntry.empty).vol_id = vol_id ∧
          (m.getD q PmapEntry.empty).lnum = ln ∧
          (m.getD q PmapEntry.empty).inuse = true ∧
          (m.getD q PmapEntry.empty).bad = false) →
      ∃ (F : Nat) (m' : Pmap),
        (∀ fuel, F ≤ fuel →
          shrink_loop vol_id first_peb last_peb target fuel m pnum lnum = some m') ∧
        (∀ p, first_peb ≤ p → p ≤ last_peb →
          (m.getD p PmapEntry.empty).vol_id = vol_id →
          (m.getD p PmapEntry.empty).inuse = true →
          (m.getD p PmapEntry.empty).bad = false →
          target ≤ (m.getD p PmapEntry.empty).lnum →
          (m.getD p PmapEntry.empty).lnum < lnum →
          m'.getD p PmapEntry.empty =
            { m.getD p PmapEntry.empty with inuse := false }) ∧
        (∀ p, ¬(first_peb ≤ p ∧ p ≤ last_peb ∧
            (m.getD p PmapEntry.empty).vol_id = vol_id ∧
            (m.getD p PmapEntry.empty).inuse = true ∧
            (m.getD p PmapEntry.empty).bad = false ∧
            target ≤ (m.getD p PmapEntry.empty).lnum ∧
            (m.getD p PmapEntry.empty).lnum < lnum) →
          m'.getD p PmapEntry.empty = m.getD p PmapEntry.empty) := by
  intro k
  induction k with
  | zero => intro m pnum lnum _ _ _ _ hk; omega
  | succ k ih =>
      intro m pnum lnum hp1 hp2 hmlen hln hk huniq
      obtain ⟨qpos, ⟨⟨hq1, hq2⟩, hqv, hqln, hqiu, hqb⟩, hquni⟩ :=
        huniq (lnum - 1) (by omega) (by omega)
      have hnomatch : ∀ j, first_peb ≤ j → j ≤ last_peb → j ≠ qpos →
          ¬((m.getD j PmapEntry.empty).vol_id = vol_id ∧
            (m.getD j PmapEntry.empty).lnum = lnum - 1 ∧
            (m.getD j PmapEntry.empty).inuse = true ∧
            ¬((m.getD j PmapEntry.empty).bad = true)) := by
        intro j hj1 hj2 hjq ⟨c1, c2, c3, c4⟩
        exact hjq (hquni j ⟨⟨hj1, hj2⟩, c1, c2, c3, Bool.not_eq_true _ |>.mp c4⟩)
      have hskip := @shrink_skip vol_id first_peb last_peb target m lnum qpos
        hq1 hq2 hnomatch
        (if qpos ≤ pnum then pnum - qpos
         else (pnum - first_peb) + 1 + (last_peb - qpos)) pnum hp1 hp2 rfl
      have hguard : (m.getD qpos PmapEntry.empty).vol_id = vol_id ∧
          (m.getD qpos PmapEntry.empty).lnum = lnum - 1 ∧
          (m.getD qpos PmapEntry.empty).inuse = true ∧
          ¬((m.getD qpos PmapEntry.empty).bad = true) :=
        ⟨hqv, hqln, hqiu, by rw [hqb]; exact Bool.false_ne_true⟩
      have hqlen : qpos < m.length := by omega
      rcases Nat.eq_zero_or_pos k with rfl | hkpos
      · -- last removal: lnum - 1 = target, the loop stops at qpos
        refine ⟨(if qpos ≤ pnum then pnum - qpos
            else (pnum - first_peb) + 1 + (last_peb - qpos)) + 1,
          m.set qpos { m.getD qpos PmapEntry.empty with inuse := false },
          ?_, ?_, ?_⟩
        · intro fuel hfuel
          obtain ⟨f0, rfl⟩ : ∃ f0, fuel = f0 + 1 +
              (if qpos ≤ pnum then pnum - qpos
               else (pnum - first_peb) + 1 + (last_peb - qpos)) := by
            refine ⟨fuel - 1 - (if qpos ≤ pnum then pnum - qpos
              else (pnum - first_peb) + 1 + (last_peb - qpos)), ?_⟩
            omega
          rw [hskip (f0 + 1)]
          rw [shrink_loop, if_pos hguard, if_pos (by omega)]
        · intro p h1 h2 h3 h4 h5 h6 h7
          have hpq : p = qpos := hquni p ⟨⟨h1, h2⟩, h3, by omega, h4, h5⟩
          subst hpq
          exact getD_set_self m _ _ _ hqlen
        · intro p hnot
          have hpq : p ≠ qpos := by
            intro he
            subst he
            exact hnot ⟨hq1, hq2, hqv, hqiu, hqb, by omega, by omega⟩
          exact getD_set_ne m _ _ (fun he => hpq he.symm)
      · -- more removals follow: step at qpos and recurse on the cleared map
        set m2 := m.set qpos { m.getD qpos PmapEntry.empty with inuse := false }
          with hm2def
        have hm2q : m2.getD qpos PmapEntry.empty =
            { m.getD qpos PmapEntry.empty with inuse := false } :=
          getD_set_self m _ _ _ hqlen
        have hm2ne : ∀ p, p ≠ qpos →
            m2.getD p PmapEntry.empty = m.getD p PmapEntry.empty :=
          fun p hp => getD_set_ne m _ _ (fun he => hp he.symm)
        have hnq1 : first_peb ≤ shrink_next first_peb last_peb qpos := by
          rw [shrink_next]; split <;> omega
        have hnq2 : shrink_next first_peb last_peb qpos ≤ last_peb := by
          rw [shrink_next]; split <;> omega
        have huniq2 : ∀ ln, target ≤ ln → ln < lnum - 1 →
            ∃! q, (first_peb ≤ q ∧ q ≤ last_peb) ∧
              (m2.getD q PmapEntry.empty).vol_id = vol_id ∧
              (m2.getD q PmapEntry.empty).lnum = ln ∧
              (m2.getD q PmapEntry.empty).inuse = true ∧
              (m2.getD q PmapEntry.empty).bad = false := by
          intro ln hl1 hl2
          obtain ⟨q, ⟨⟨hb1, hb2⟩, hv, hl, hiu, hbd⟩, huni⟩ :=
            huniq ln hl1 (by omega)
          have hqq : q ≠ qpos := by
            intro he
            subst he
            omega
          refine ⟨q, ⟨⟨hb1, hb2⟩, ?_, ?_, ?_, ?_⟩, ?_⟩
          · rw [hm2ne q hqq]; exact hv
          · rw [hm2ne q hqq]; exact hl
          · rw [hm2ne q hqq]; exact hiu
          · rw [hm2ne q hqq]; exact hbd
          · intro y ⟨⟨hy1, hy2⟩, hyv, hyl, hyiu, hyb⟩
            have hyq : y ≠ qpos := by
              intro he
              subst he
              rw [hm2q] at hyiu
              simp at hyiu
            rw [hm2ne y hyq] at hyv hyl hyiu hyb
            exact huni y ⟨⟨hy1, hy2⟩, hyv, hyl, hyiu, hyb⟩
        obtain ⟨F, m', hloop, hclear, hkeep⟩ := ih m2
          (shrink_next first_peb last_peb qpos) (lnum - 1) hnq1 hnq2
          (by rw [hm2def, List.length_set]; omega) (by omega) hkpos huniq2
        refine ⟨(if qpos ≤ pnum then pnum - qpos
            else (pnum - first_peb) + 1 + (last_peb - qpos)) + 1 + F,
          m', ?_, ?_, ?_⟩
        · intro fuel hfuel
          obtain ⟨f0, hfe, hf0⟩ : ∃ f0, fuel = f0 + 1 +
              (if qpos ≤ pnum then pnum - qpos
               else (pnum - first_peb) + 1 + (last_peb - qpos)) ∧ F ≤ f0 :=
            ⟨fuel - 1 - (if qpos ≤ pnum then pnum - qpos
              else (pnum - first_peb) + 1 + (last_peb - qpos)),
             by omega, by omega⟩
          rw [hfe, hskip (f0 + 1)]
          rw [shrink_loop, if_pos hguard, if_neg (show ¬(lnum - 1 = target) by omega)]
          rw [← hm2def]
          exact hloop f0 hf0
        · intro p h1 h2 h3 h4 h5 h6 h7
          by_cases hpq : p = qpos
          · subst hpq
            have hkept : m'.getD p PmapEntry.empty = m2.getD p PmapEntry.empty := by
              apply hkeep
              intro hc
              rw [hm2q] at hc
              simp at hc
            rw [hkept, hm2q]
          · have hlnp : (m.getD p PmapEntry.empty).lnum ≠ lnum - 1 := by
              intro he
              exact hpq (hquni p ⟨⟨h1, h2⟩, h3, he, h4, h5⟩)
            have hres := hclear p h1 h2
              (by rw [hm2ne p hpq]; exact h3)
              (by rw [hm2ne p hpq]; exact h4)
              (by rw [hm2ne p hpq]; exact h5)
              (by rw [hm2ne p hpq]; exact h6)
              (by rw [hm2ne p hpq]; omega)
            rw [hres, hm2ne p hpq]
        · intro p hnot
          have hpq : p ≠ qpos := by
            intro he
            subst he
            exact hnot ⟨hq1, hq2, hqv, hqiu, hqb, by omega, by omega⟩
          have hkept : m'.getD p PmapEntry.empty = m2.getD p PmapEntry.empty := by
            apply hkeep
            intro hc
            obtain ⟨c1, c2, c3, c4, c5, c6, c7⟩ := hc
            rw [hm2ne p hpq] at c3 c4 c5 c6 c7
            exact hnot ⟨c1, c2, c3, c4, c5, c6, by omega⟩
          rw [hkept, hm2ne p hpq]

theorem getD_set_empty (m : Pmap) (q : Nat) :
    (m.set q PmapEntry.empty).getD q PmapEntry.empty = PmapEntry.empty := by
  by_cases h : q < m.length
  · exact getD_set_self m q _ _ h
  · apply List.getD_eq_default
    rw [List.length_set]
    omega

theorem resize_clear_getD {vol_id : Nat} :
    ∀ (l : List Nat), l.Nodup → ∀ {m : Pmap} (p : Nat),
      (resize_clear vol_id l m).getD p PmapEntry.empty =
        (if p ∈ l ∧ (m.getD p PmapEntry.empty).vol_id = vol_id then PmapEntry.empty
         else m.getD p PmapEntry.empty) := by
  intro l
  induction l with
  | nil =>
      intro _ m p
      rw [resize_clear, if_neg (fun h => (List.not_mem_nil p) h.1)]
  | cons q rest ih =>
      intro hnd m p
      obtain ⟨hq, hndr⟩ := List.nodup_cons.mp hnd
      rw [resize_clear]
      split
      · rename_i hv
        rw [ih hndr p]
        by_cases hpq : p = q
        · subst hpq
          rw [if_neg (fun h => hq h.1)]
          rw [getD_set_empty]
          rw [if_pos ⟨List.mem_cons_self p rest, hv⟩]
        · have hsp : (m.set q PmapEntry.empty).getD p PmapEntry.empty =
              m.getD p PmapEntry.empty := getD_set_ne m _ _ (fun he => hpq he.symm)
          rw [hsp]
          by_cases hin : p ∈ rest ∧ (m.getD p PmapEntry.empty).vol_id = vol_id
          · rw [if_pos hin, if_pos ⟨List.mem_cons_of_mem _ hin.1, hin.2⟩]
          · rw [if_neg hin, if_neg (fun hc => hin
              ⟨(List.mem_cons.mp hc.1).resolve_left hpq, hc.2⟩)]
      · rename_i hv
        rw [ih hndr p]
        by_cases hpq : p = q
        · subst hpq
          rw [if_neg (fun h => hq h.1), if_neg (fun hc => hv hc.2)]
        · by_cases hin : p ∈ rest ∧ (m.getD p PmapEntry.empty).vol_id = vol_id
          · rw [if_pos hin, if_pos ⟨List.mem_cons_of_mem _ hin.1, hin.2⟩]
          · rw [if_neg hin, if_neg (fun hc => hin
              ⟨(List.mem_cons.mp hc.1).resolve_left hpq, hc.2⟩)]

/-- C6: for every new_reserved_pebs strictly between zero and the volume's
in-use PEB count (on a map whose volume carries each removed lnum exactly
once inside its area), ubi_pmap_resize_volume's circular shrink scan
terminates with enough fuel and clears `inuse` of exactly the volume's
entries with lnum in [new_reserved_pebs, count) — the logical end —
leaving in use exactly the entries with lnum in [0, new_reserved_pebs) and
touching nothing else; and new_reserved_pebs == 0 zeroes every entry of
the volume's area whose vol_id matches, destroying the volume. -/
theorem resize_shrink_and_destroy_spec (ubi : UbiDevice) (m : Pmap) (vol_id : Nat)
    (hm : m.length = ubi.peb_count)
    (hR : 0 < ubi.layout_reserved_ebs)
    (hRle : ubi.layout_reserved_ebs ≤ ubi.peb_count)
    (hpc : 0 < ubi.peb_count) :
    (∀ target, 0 < target →
      target < ubi_pmap_vol_peb_count ubi m vol_id →
      (∀ ln, target ≤ ln → ln < ubi_pmap_vol_peb_count ubi m vol_id →
        ∃! q, ((ubi_pmap_vol_reserved_area ubi vol_id).1 ≤ q ∧
            q ≤ (ubi_pmap_vol_reserved_area ubi vol_id).2) ∧
          (m.getD q PmapEntry.empty).vol_id = vol_id ∧
          (m.getD q PmapEntry.empty).lnum = ln ∧
          (m.getD q PmapEntry.empty).inuse = true ∧
          (m.getD q PmapEntry.empty).bad = false) →
      ∃ (F : Nat) (m' : Pmap),
        (∀ fuel, F ≤ fuel →
          ubi_pmap_resize_volume ubi m vol_id target fuel = some (0, m')) ∧
        (∀ p, (ubi_pmap_vol_reserved_area ubi vol_id).1 ≤ p →
          p ≤ (ubi_pmap_vol_reserved_area ubi vol_id).2 →
          (m.getD p PmapEntry.empty).vol_id = vol_id →
          (m.getD p PmapEntry.empty).inuse = true →
          (m.getD p PmapEntry.empty).bad = false →
          target ≤ (m.getD p PmapEntry.empty).lnum →
          (m.getD p PmapEntry.empty).lnum < ubi_pmap_vol_peb_count ubi m vol_id →
          m'.getD p PmapEntry.empty =
            { m.getD p PmapEntry.empty with inuse := false }) ∧
        (∀ p, ¬((ubi_pmap_vol_reserved_area ubi vol_id).1 ≤ p ∧
            p ≤ (ubi_pmap_vol_reserved_area ubi vol_id).2 ∧
            (m.getD p PmapEntry.empty).vol_id = vol_id ∧
            (m.getD p PmapEntry.empty).inuse = true ∧
            (m.getD p PmapEntry.empty).bad = false ∧
            target ≤ (m.getD p PmapEntry.empty).lnum ∧
            (m.getD p PmapEntry.empty).lnum < ubi_pmap_vol_peb_count ubi m vol_id) →
          m'.getD p PmapEntry.empty = m.getD p PmapEntry.empty)) ∧
    (∀ fuel, ∃ m0 : Pmap,
      ubi_pmap_resize_volume ubi m vol_id 0 fuel = some (0, m0) ∧
      ∀ p, m0.getD p PmapEntry.empty =
        (if p ∈ pebRange (ubi_pmap_vol_reserved_area ubi vol_id).1
              (ubi_pmap_vol_reserved_area ubi vol_id).2 ∧
            (m.getD p PmapEntry.empty).vol_id = vol_id then PmapEntry.empty
         else m.getD p PmapEntry.empty)) := by
  constructor
  · intro target h0 htc huniq
    have hlast := vol_reserved_area_last_lt ubi vol_id hR hRle hpc
    have hfl : (ubi_pmap_vol_reserved_area ubi vol_id).1 ≤
        (ubi_pmap_vol_reserved_area ubi vol_id).2 := by
      by_contra hcon
      have hempty : pebRange (ubi_pmap_vol_reserved_area ubi vol_id).1
          (ubi_pmap_vol_reserved_area ubi vol_id).2 = [] := by
        rw [pebRange, List.range'_eq_nil]
        omega
      have : ubi_pmap_vol_peb_count ubi m vol_id = 0 := by
        rw [ubi_pmap_vol_peb_count]
        simp only [hempty, List.countP_nil]
      omega
    obtain ⟨F, m', hloop, hclear, hkeep⟩ :=
      @shrink_correct vol_id
        (ubi_pmap_vol_reserved_area ubi vol_id).1
        (ubi_pmap_vol_reserved_area ubi vol_id).2
        target
        (ubi_pmap_vol_peb_count ubi m vol_id - target) m
        (ubi_pmap_vol_reserved_area ubi vol_id).2
        (ubi_pmap_vol_peb_count ubi m vol_id)
        hfl (Nat.le_refl _) (by omega) (by omega) (by omega) huniq
    refine ⟨F, m', ?_, hclear, hkeep⟩
    intro fuel hf
    simp only [ubi_pmap_resize_volume]
    rw [if_neg (show ¬(target = 0) by omega)]
    rw [if_neg (show ¬(ubi_pmap_vol_peb_count ubi m vol_id < target) by omega)]
    rw [if_pos (show (m, ubi_pmap_vol_peb_count ubi m vol_id).2 > target from htc)]
    rw [hloop fuel hf]
    rfl
  · intro fuel
    refine ⟨resize_clear vol_id (pebRange (ubi_pmap_vol_reserved_area ubi vol_id).1
        (ubi_pmap_vol_reserved_area ubi vol_id).2) m, ?_, ?_⟩
    · simp only [ubi_pmap_resize_volume]
      rw [if_pos trivial]
    · intro p
      exact resize_clear_getD _ (pebRange_nodup _ _) p

/-- Witness for C6 on `c6_map`: volume 1 holds lnums 0,1,2 at PEBs 3,4,2;
shrinking to 1 and destroying with 0. -/
theorem resize_shrink_and_destroy_spec_witness :
    (c6_map.length = devA.peb_count ∧ 0 < devA.layout_reserved_ebs ∧
     devA.layout_reserved_ebs ≤ devA.peb_count ∧ 0 < devA.peb_count ∧
     0 < 1 ∧ 1 < ubi_pmap_vol_peb_count devA c6_map 1) ∧
    (∃ (F : Nat) (m' : Pmap),
      (∀ fuel, F ≤ fuel →
        ubi_pmap_resize_volume devA c6_map 1 1 fuel = some (0, m')) ∧
      (∀ p, (ubi_pmap_vol_reserved_area devA 1).1 ≤ p →
        p ≤ (ubi_pmap_vol_reserved_area devA 1).2 →
        (c6_map.getD p PmapEntry.empty).vol_id = 1 →
        (c6_map.getD p PmapEntry.empty).inuse = true →
        (c6_map.getD p PmapEntry.empty).bad = false →
        1 ≤ (c6_map.getD p PmapEntry.empty).lnum →
        (c6_map.getD p PmapEntry.empty).lnum < ubi_pmap_vol_peb_count devA c6_map 1 →
        m'.getD p PmapEntry.empty =
          { c6_map.getD p PmapEntry.empty with inuse := false }) ∧
      (∀ p, ¬((ubi_pmap_vol_reserved_area devA 1).1 ≤ p ∧
          p ≤ (ubi_pmap_vol_reserved_area devA 1).2 ∧
          (c6_map.getD p PmapEntry.empty).vol_id = 1 ∧
          (c6_map.getD p PmapEntry.empty).inuse = true ∧
          (c6_map.getD p PmapEntry.empty).bad = false ∧
          1 ≤ (c6_map.getD p PmapEntry.empty).lnum ∧
          (c6_map.getD p PmapEntry.empty).lnum < ubi_pmap_vol_peb_count devA c6_map 1) →
        m'.getD p PmapEntry.empty = c6_map.getD p PmapEntry.empty)) ∧
    (∃ m0 : Pmap, ubi_pmap_resize_volume devA c6_map 1 0 3 = some (0, m0) ∧
      ∀ p, m0.getD p PmapEntry.empty =
        (if p ∈ pebRange (ubi_pmap_vol_reserved_area devA 1).1
              (ubi_pmap_vol_reserved_area devA 1).2 ∧
            (c6_map.getD p PmapEntry.empty).vol_id = 1 then PmapEntry.empty
         else c6_map.getD p PmapEntry.empty)) := by
  have hthm := resize_shrink_and_destroy_spec devA c6_map 1
    (by decide) (by decide) (by decide) (by decide)
  refine ⟨⟨by decide, by decide, by decide, by decide, by decide, by decide⟩, ?_, hthm.2 3⟩
  apply hthm.1 1 (by decide) (by decide)
  intro ln h1 h2
  have hc : ubi_pmap_vol_peb_count devA c6_map 1 = 3 := by decide
  rw [hc] at h2
  have ha1 : (ubi_pmap_vol_reserved_area devA 1).1 = 2 := rfl
  have ha2 : (ubi_pmap_vol_reserved_area devA 1).2 = 5 := rfl
  interval_cases ln
  · refine ⟨4, by decide, ?_⟩
    intro y hy
    obtain ⟨⟨hy1, hy2⟩, hrest⟩ := hy
    rw [ha1] at hy1
    rw [ha2] at hy2
    interval_cases y <;> revert hrest <;> decide
  · refine ⟨2, by decide, ?_⟩
    intro y hy
    obtain ⟨⟨hy1, hy2⟩, hrest⟩ := hy
    rw [ha1] at hy1
    rw [ha2] at hy2
    interval_cases y <;> revert hrest <;> decide

/-! ## C1: recovery with a valid copy 0 -/

/-- C1 fails on the code: on `c1_flash`, whose two layout-volume copies
are valid and byte-for-byte identical, process_lvol adopts copy 0 (that
part of the claim holds) but still rewrites copy 1 (LEBs 2 and 3), because
its read loop `for (i = 0; i < UBI_LAYOUT_VOLUME_COPIES;
i += UBI_LAYOUT_VOLUME_EBS_PER_COPY)` runs its body only for i = 0: the
buffers of copy 1 stay NULL, the byte-for-byte comparison is dead code,
and copy_corrupted[1] keeps its initial value 1. -/
theorem process_lvol_rewrites_identical_copy1 :
    vtbl_check cctx goodVtbl goodPtbl = 0 ∧
    c1_flash.vtblLeb 2 = some goodVtbl ∧
    c1_flash.ptblLeb 3 = some goodPtbl ∧
    process_lvol cctx c1_flash =
      (.ok (goodVtbl, goodPtbl),
       [.unmap 2, .vtbl 2 goodVtbl, .unmap 3, .ptbl 3 goodPtbl]) :=
  ⟨rfl, rfl, rfl, rfl⟩

/-! ## C2: both copies corrupted -/

/-- C2 fails as stated: on `c2_flash` every record of both layout-volume
copies fails its CRC check, and process_lvol duly fails with -EINVAL
without writing anything — but the attach does not stop there:
ubi_read_volume_table (lines 2602-2611) catches the failure and
synthesizes a fresh empty layout volume, writing new empty tables over
both copies (eight flash operations) and carrying on with the attach. -/
theorem both_copies_corrupt_creates_empty_lvol :
    vtbl_check cctx (zero_vtbl_img cctx) (zero_ptbl_img cctx) = 1 ∧
    c2_flash.vtblLeb 0 = some (zero_vtbl_img cctx) ∧
    c2_flash.vtblLeb 2 = some (zero_vtbl_img cctx) ∧
    process_lvol cctx c2_flash = (.error (-22), []) ∧
    (ubi_read_volume_table_recover cctx c2_pm c2_flash).1.isOk = true ∧
    (ubi_read_volume_table_recover cctx c2_pm c2_flash).2.length = 8 :=
  ⟨rfl, rfl, rfl, rfl, rfl, rfl⟩

/-- C2 as amended: whenever the (only) copy read by process_lvol — copy 0
— fails validation, process_lvol returns the fatal -EINVAL with no writes
(with the read loop running once, copy 1 cannot save it); but
ubi_read_volume_table then behaves exactly as create_empty_lvol: it
synthesizes an empty volume table and PEB table and writes them over both
copies instead of aborting the attach. -/
theorem read_volume_table_synthesizes_empty_tables (ctx : VtblCtx) (pm : Pmap)
    (flash : LayoutFlash)
    (h0 : vtbl_check ctx ((flash.vtblLeb 0).getD (zero_vtbl_img ctx))
        ((flash.ptblLeb 1).getD (zero_ptbl_img ctx)) ≠ 0) :
    process_lvol ctx flash = (.error (-22), []) ∧
    ubi_read_volume_table_recover ctx pm flash = create_empty_lvol ctx pm ∧
    (create_empty_lvol ctx pm).2.length = 8 := by
  have hb0v : lvol_buf_vtbl ctx flash 0 =
      some ((flash.vtblLeb 0).getD (zero_vtbl_img ctx)) := by
    rw [lvol_buf_vtbl, if_pos (show (0 : Nat) ∈ lvolReadIdx by decide)]
  have hb0p : lvol_buf_ptbl ctx flash 0 =
      some ((flash.ptblLeb 1).getD (zero_ptbl_img ctx)) := by
    rw [lvol_buf_ptbl, if_pos (show (0 : Nat) ∈ lvolReadIdx by decide)]
  have hb1v : lvol_buf_vtbl ctx flash 1 = none := by
    rw [lvol_buf_vtbl, if_neg (show ¬((1 : Nat) ∈ lvolReadIdx) by decide)]
  have hpl : process_lvol ctx flash = (.error (-22), []) := by
    simp only [process_lvol, hb0v, hb0p, hb1v]
    by_cases hlt : vtbl_check ctx ((flash.vtblLeb 0).getD (zero_vtbl_img ctx))
        ((flash.ptblLeb 1).getD (zero_ptbl_img ctx)) < 0
    · rw [if_pos hlt]
    · rw [if_neg hlt, if_neg h0]
  refine ⟨hpl, ?_, rfl⟩
  rw [ubi_read_volume_table_recover, hpl]
  rcases hce : create_empty_lvol ctx pm with ⟨res, w2⟩
  cases res with
  | ok tables => simp
  | error e => simp

/-- Witness for the amended C2 at the concrete corrupted flash
`c2_flash`. -/
theorem read_volume_table_synthesizes_empty_tables_witness :
    (vtbl_check cctx ((c2_flash.vtblLeb 0).getD (zero_vtbl_img cctx))
        ((c2_flash.ptblLeb 1).getD (zero_ptbl_img cctx)) ≠ 0) ∧
    (process_lvol cctx c2_flash = (.error (-22), []) ∧
     ubi_read_volume_table_recover cctx c2_pm c2_flash =
       create_empty_lvol cctx c2_pm ∧
     (create_empty_lvol cctx c2_pm).2.length = 8) :=
  ⟨by decide,
   read_volume_table_synthesizes_empty_tables cctx c2_pm c2_flash (by decide)⟩

end Ubi2
